import Mathlib

/-!
# RAWIMUS log decoding (novatel_gps_driver, src/parsers/rawimu.cpp)

A shallow embedding of `RawImuParser::ParseBinary` and `RawImuParser::ParseAscii`.

Modelling conventions.

* A C++ exception is an `Except.error`; the thrown `ParseException` carries its message.
* A read past the end of a vector (undefined behaviour in C++) is the distinct outcome
  `Failure.OutOfRange`, so that "no read is out of bounds" is a statement about the code.
* A `double` is modelled exactly: a finite value is a rational number; the special values
  are kept apart. `RawImuParser.ParseBinary` computes the scale conversion in exact rational
  arithmetic, the idealisation in which the properties worded "in exact arithmetic" are
  stated. `RawImuParser.Rounded.ParseBinary` is the same function with every operation of
  the scale conversion rounded to binary64 (to nearest, ties to even), as the C++ `double`
  arithmetic does.
* The header decoder (`HeaderParser`) and the string-to-number helpers of `parsing_utils`
  are collaborators whose code is elsewhere: they are parameters of the two decoders.
-/

namespace novatel_gps_driver

/-- One octet of a binary message. -/
abbrev Byte := Fin 256

/-- An IEEE-754 binary64 value, modelled exactly: a finite value is the rational number it
denotes, negative zero and the special values are separate constructors. -/
inductive Double where
  | finite (q : ℚ)
  | negZero
  | inf (negative : Bool)
  | nan
  deriving DecidableEq

/-- The message type geometry_msgs/Vector3: three doubles. -/
structure Vector3 where
  x : Double
  y : Double
  z : Double
  deriving DecidableEq

/-- Modelled from the spec: the message type NovatelMessageHeader is declared outside
rawimu.cpp. The decoders only assign it as a whole and write its `message_name`; all its
other fields are carried in `rest`. -/
structure NovatelMessageHeader (Rest : Type) where
  message_name : String
  rest : Rest

/-- Modelled from the spec: the message type NovatelRawImu (the RawImuMeasurement entity of
the data model), with the fields that rawimu.cpp writes. -/
structure NovatelRawImu (Rest : Type) where
  novatel_msg_header : NovatelMessageHeader Rest
  gps_week_num : Nat
  gps_seconds : Double
  linear_acceleration : Vector3
  angular_velocity : Vector3

/-- The binary message handed over by the framing layer: the parser reads `data_` only; the
framed header is consumed by the header decoder. -/
structure BinaryMessage (BinaryHeader : Type) where
  header_ : BinaryHeader
  data_ : List Byte
  crc_ : Nat

/-- The tokenized text record handed over by the framing layer. -/
structure NovatelSentence where
  id : String
  header : List String
  body : List String

/-- The ways a decode call can end without an entity: a thrown `ParseException` with its
message, or a read past the end of a vector. -/
inductive Failure where
  | ParseException (what : String)
  | OutOfRange
  deriving DecidableEq

/-- The header decoder `HeaderParser` (header.cpp), an injected collaborator: it returns a
header or throws. -/
structure HeaderParser (BinaryHeader Rest : Type) where
  ParseBinary : BinaryMessage BinaryHeader → Except Failure (NovatelMessageHeader Rest)
  ParseAscii : NovatelSentence → Except Failure (NovatelMessageHeader Rest)

/-- The string overloads `bool ParseUInt32(const std::string&, uint32_t&)` and
`bool ParseDouble(const std::string&, double&)` of parsing_utils, injected collaborators:
`some v` is "returns true and stores v", `none` is "returns false". -/
structure StringParsers where
  ParseUInt32 : String → Option Nat
  ParseDouble : String → Option Double

/-- Modelled from the spec: the constant BINARY_LENGTH of rawimu.h, 40 bytes. -/
def BINARY_LENGTH : Nat := 40

/-- Modelled from the spec: the constant ASCII_FIELDS of rawimu.h, 9 fields. -/
def ASCII_FIELDS : Nat := 9

/-- The `n` bytes that a pointer `&data_[off]` gives access to, when they all lie inside
the vector. -/
def readBytes (data : List Byte) (off n : Nat) : Except Failure (List Byte) :=
  if off + n ≤ data.length then .ok ((data.drop off).take n) else .error Failure.OutOfRange

/-- The unsigned value of a little-endian byte string. -/
def leValue : List Byte → Nat
  | [] => 0
  | b :: bs => b.val + 256 * leValue bs

/-- Modelled from the spec: `uint32_t ParseUInt32(const uint8_t*)` of parsing_utils, an
unsigned 32-bit little-endian integer. -/
def ParseUInt32 (data : List Byte) (off : Nat) : Except Failure Nat :=
  (readBytes data off 4).map leValue

/-- The signed reading of a 32-bit pattern (twos complement). -/
def toInt32 (u : Nat) : Int :=
  if u < 2147483648 then (u : Int) else (u : Int) - 4294967296

/-- Modelled from the spec: `int32_t ParseInt32(const uint8_t*)` of parsing_utils, a signed
32-bit little-endian integer. -/
def ParseInt32 (data : List Byte) (off : Nat) : Except Failure Int :=
  (readBytes data off 4).map (fun bs => toInt32 (leValue bs))

/-- The value of a binary64 bit pattern: 1 sign bit, 11 exponent bits, 52 fraction bits. -/
def decodeBinary64 (bits : Nat) : Double :=
  let sign : Nat := bits / 2 ^ 63 % 2
  let e : Nat := bits / 2 ^ 52 % 2048
  let m : Nat := bits % 2 ^ 52
  let s : ℚ := if sign = 1 then -1 else 1
  if e = 2047 then
    if m = 0 then Double.inf (sign = 1) else Double.nan
  else if e = 0 then
    if m = 0 then (if sign = 1 then Double.negZero else Double.finite 0)
    else Double.finite (s * (m : ℚ) / 2 ^ 1074)
  else if 1075 ≤ e then Double.finite (s * (((2 ^ 52 + m : Nat)) : ℚ) * 2 ^ (e - 1075))
  else Double.finite (s * (((2 ^ 52 + m : Nat)) : ℚ) / 2 ^ (1075 - e))

/-- Modelled from the spec: `double ParseDouble(const uint8_t*)` of parsing_utils, a 64-bit
IEEE-754 little-endian floating point number. -/
def ParseDouble (data : List Byte) (off : Nat) : Except Failure Double :=
  (readBytes data off 8).map (fun bs => decodeBinary64 (leValue bs))

/-- The element `body[i]` of a vector of strings. -/
def field (body : List String) (i : Nat) : Except Failure String :=
  match body.get? i with
  | some s => .ok s
  | none => .error Failure.OutOfRange

namespace RawImuParser

/-- The constant `RawImuParser::MESSAGE_NAME`. -/
def MESSAGE_NAME : String := "RAWIMUS"

/-- The accessor `RawImuParser::GetMessageName`. -/
def GetMessageName : String := MESSAGE_NAME

/-- The local `DataRate` of ParseBinary, in Hz. -/
def DataRate : ℚ := 125

/-- The local `ONE_G` of ParseBinary, in m/s/s. -/
def ONE_G : ℚ := 9.80665

/-- The local `sf_az` of ParseBinary. -/
def sf_az : ℚ := (0.200 / 65536) * (ONE_G / 1000) / DataRate

/-- The local `sf_ay` of ParseBinary. -/
def sf_ay : ℚ := (0.200 / 65536) * (ONE_G / 1000) / DataRate

/-- The local `sf_ax` of ParseBinary. -/
def sf_ax : ℚ := (0.200 / 65536) * (ONE_G / 1000) / DataRate

/-- The local `sf_wz` of ParseBinary. -/
def sf_wz : ℚ := (0.008 / 65536) / DataRate

/-- The local `sf_wy` of ParseBinary. -/
def sf_wy : ℚ := (0.008 / 65536) / DataRate

/-- The local `sf_wx` of ParseBinary. -/
def sf_wx : ℚ := (0.008 / 65536) / DataRate

/-- The local constant `pi` of ParseBinary: a decimal literal. -/
def pi : ℚ := 3.14159265358979323846

/-- The decoder `RawImuParser::ParseBinary` (rawimu.cpp, lines 47 to 83). -/
def ParseBinary {BinaryHeader Rest : Type} (hparser : HeaderParser BinaryHeader Rest)
    (bin_msg : BinaryMessage BinaryHeader) : Except Failure (NovatelRawImu Rest) :=
  if bin_msg.data_.length ≠ BINARY_LENGTH then
    .error (Failure.ParseException
      ("Unexpected rawimu message size: " ++ toString bin_msg.data_.length))
  else do
    let header ← hparser.ParseBinary bin_msg
    let header := { header with message_name := "RAWIMUS" }
    let gps_week_num ← ParseUInt32 bin_msg.data_ 0
    let gps_seconds ← ParseDouble bin_msg.data_ 4
    let az ← ParseInt32 bin_msg.data_ 16
    let ay ← ParseInt32 bin_msg.data_ 20
    let ax ← ParseInt32 bin_msg.data_ 24
    let wz ← ParseInt32 bin_msg.data_ 28
    let wy ← ParseInt32 bin_msg.data_ 32
    let wx ← ParseInt32 bin_msg.data_ 36
    pure
      { novatel_msg_header := header
        gps_week_num := gps_week_num
        gps_seconds := gps_seconds
        linear_acceleration :=
          { z := Double.finite (sf_az * DataRate * (az : ℚ))
            y := Double.finite (sf_ay * DataRate * (ay : ℚ))
            x := Double.finite (sf_ax * DataRate * (ax : ℚ)) }
        angular_velocity :=
          { z := Double.finite (sf_wz * DataRate * (wz : ℚ) * pi / 180.0)
            y := Double.finite (sf_wy * DataRate * (wy : ℚ) * pi / 180.0)
            x := Double.finite (sf_wx * DataRate * (wx : ℚ) * pi / 180.0) } }

/-- The decoder `RawImuParser::ParseAscii` (rawimu.cpp, lines 87 to 118): every field is
parsed into the freshly constructed message, the flags are accumulated, and the message is
returned only when all of them are set. -/
def ParseAscii {BinaryHeader Rest : Type} (hparser : HeaderParser BinaryHeader Rest)
    (sp : StringParsers) (sentence : NovatelSentence) : Except Failure (NovatelRawImu Rest) :=
  if sentence.body.length ≠ ASCII_FIELDS then
    .error (Failure.ParseException
      ("Unexpected number of fields in RAWIMUS log: " ++ toString sentence.body.length))
  else do
    let header ← hparser.ParseAscii sentence
    let msg : NovatelRawImu Rest :=
      { novatel_msg_header := header
        gps_week_num := 0
        gps_seconds := Double.finite 0
        linear_acceleration := ⟨Double.finite 0, Double.finite 0, Double.finite 0⟩
        angular_velocity := ⟨Double.finite 0, Double.finite 0, Double.finite 0⟩ }
    let valid := true
    let r0 := sp.ParseUInt32 (← field sentence.body 0)
    let msg := { msg with gps_week_num := r0.getD msg.gps_week_num }
    let valid := valid && r0.isSome
    let r1 := sp.ParseDouble (← field sentence.body 1)
    let msg := { msg with gps_seconds := r1.getD msg.gps_seconds }
    let valid := valid && r1.isSome
    let r3 := sp.ParseDouble (← field sentence.body 3)
    let msg := { msg with
      linear_acceleration.z := r3.getD msg.linear_acceleration.z }
    let valid := valid && r3.isSome
    let r4 := sp.ParseDouble (← field sentence.body 4)
    let msg := { msg with
      linear_acceleration.y := r4.getD msg.linear_acceleration.y }
    let valid := valid && r4.isSome
    let r5 := sp.ParseDouble (← field sentence.body 5)
    let msg := { msg with
      linear_acceleration.x := r5.getD msg.linear_acceleration.x }
    let valid := valid && r5.isSome
    let r6 := sp.ParseDouble (← field sentence.body 6)
    let msg := { msg with
      angular_velocity.z := r6.getD msg.angular_velocity.z }
    let valid := valid && r6.isSome
    let r7 := sp.ParseDouble (← field sentence.body 7)
    let msg := { msg with
      angular_velocity.y := r7.getD msg.angular_velocity.y }
    let valid := valid && r7.isSome
    let r8 := sp.ParseDouble (← field sentence.body 8)
    let msg := { msg with
      angular_velocity.x := r8.getD msg.angular_velocity.x }
    let valid := valid && r8.isSome
    if !valid then
      .error (Failure.ParseException "Error parsing RAWIMUS log.")
    else
      pure msg

end RawImuParser

end novatel_gps_driver

/-! ## The binary64 arithmetic of the scale conversion -/

namespace novatel_gps_driver

/-- A binary64 value in integer form: `finite neg m t` is the number `± m * 2 ^ t` (a zero,
signed, when `m = 0`), next to the two infinities and the NaN. -/
inductive Binary64 where
  | finite (neg : Bool) (m : Nat) (t : Int)
  | inf (neg : Bool)
  | nan
  deriving DecidableEq

/-- The integer nearest to `n / d`, a tie going to the even one. -/
def roundHalfEven (n d : Nat) : Nat :=
  let q := n / d
  let r := n % d
  if 2 * r < d then q
  else if d < 2 * r then q + 1
  else if q % 2 = 0 then q else q + 1

/-- The number of binary digits of `n`, counted in at most `fuel` steps. -/
def bitLength : Nat → Nat → Nat
  | 0, _ => 0
  | fuel + 1, n => if n = 0 then 0 else bitLength fuel (n / 2) + 1

/-- The binary exponent of a positive ratio: the `e` with `2 ^ e ≤ n / d < 2 ^ (e + 1)`.
The difference of the bit lengths is that exponent or exceeds it by one. -/
def binaryExponent (n d : Nat) : Int :=
  let e0 : Int := (bitLength n n : Int) - (bitLength d d : Int)
  if n * 2 ^ (-e0).toNat < d * 2 ^ e0.toNat then e0 - 1 else e0

/-- The binary64 value nearest to `± (n / d) * 2 ^ k` (ties to even), for `d > 0`: the
significand has 53 bits from the exponent -1022 on and fewer below (subnormal numbers); a
result of magnitude `2 ^ 1024` is an infinity. -/
def roundRatio (neg : Bool) (n d : Nat) (k : Int) : Binary64 :=
  if n = 0 then Binary64.finite neg 0 0
  else
    let n1 := n * 2 ^ k.toNat
    let d1 := d * 2 ^ (-k).toNat
    let e : Int := max (binaryExponent n1 d1) (-1022)
    let t : Int := e - 52
    let m := roundHalfEven (n1 * 2 ^ (-t).toNat) (d1 * 2 ^ t.toNat)
    if 2 ^ 53 ≤ m ∧ 971 ≤ t then Binary64.inf neg
    else if m = 0 then Binary64.finite neg 0 0
    else Binary64.finite neg m t

namespace Binary64

/-- The double denoted by a decimal literal with the digits `mantissa` and `decimals`
digits after the point, such as `0.200` (200, 3). -/
def ofScientific (mantissa decimals : Nat) : Binary64 :=
  roundRatio false mantissa (10 ^ decimals) 0

/-- The conversion of an integer to double, `static_cast<double>`. -/
def ofInt (r : Int) : Binary64 :=
  roundRatio (decide (r < 0)) r.natAbs 1 0

/-- The product of two doubles. -/
def mul : Binary64 → Binary64 → Binary64
  | finite s1 m1 t1, finite s2 m2 t2 => roundRatio (xor s1 s2) (m1 * m2) 1 (t1 + t2)
  | finite s1 m1 _, inf s2 => if m1 = 0 then nan else inf (xor s1 s2)
  | inf s1, finite s2 m2 _ => if m2 = 0 then nan else inf (xor s1 s2)
  | inf s1, inf s2 => inf (xor s1 s2)
  | _, _ => nan

/-- The quotient of two doubles. -/
def div : Binary64 → Binary64 → Binary64
  | finite s1 m1 t1, finite s2 m2 t2 =>
    if m2 = 0 then (if m1 = 0 then nan else inf (xor s1 s2))
    else roundRatio (xor s1 s2) m1 m2 (t1 - t2)
  | finite s1 _ _, inf s2 => finite (xor s1 s2) 0 0
  | inf s1, finite s2 _ _ => inf (xor s1 s2)
  | _, _ => nan

instance : Mul Binary64 := ⟨Binary64.mul⟩

instance : Div Binary64 := ⟨Binary64.div⟩

/-- The value of a double in integer form. -/
def toDouble : Binary64 → Double
  | finite neg m t =>
    if m = 0 then (if neg then Double.negZero else Double.finite 0)
    else Double.finite ((if neg then -1 else 1) * (m : ℚ) * 2 ^ t.toNat / 2 ^ (-t).toNat)
  | inf neg => Double.inf neg
  | nan => Double.nan

end Binary64

namespace RawImuParser

namespace Rounded

/-- The local `DataRate` of ParseBinary, as a double. -/
def DataRate : Binary64 := Binary64.ofInt 125

/-- The local `ONE_G` of ParseBinary, as a double. -/
def ONE_G : Binary64 := Binary64.ofScientific 980665 5

/-- The local `sf_az` of ParseBinary, as a double. -/
def sf_az : Binary64 :=
  (Binary64.ofScientific 200 3 / Binary64.ofInt 65536) * (ONE_G / Binary64.ofInt 1000) / DataRate

/-- The local `sf_ay` of ParseBinary, as a double. -/
def sf_ay : Binary64 :=
  (Binary64.ofScientific 200 3 / Binary64.ofInt 65536) * (ONE_G / Binary64.ofInt 1000) / DataRate

/-- The local `sf_ax` of ParseBinary, as a double. -/
def sf_ax : Binary64 :=
  (Binary64.ofScientific 200 3 / Binary64.ofInt 65536) * (ONE_G / Binary64.ofInt 1000) / DataRate

/-- The local `sf_wz` of ParseBinary, as a double. -/
def sf_wz : Binary64 := (Binary64.ofScientific 8 3 / Binary64.ofInt 65536) / DataRate

/-- The local `sf_wy` of ParseBinary, as a double. -/
def sf_wy : Binary64 := (Binary64.ofScientific 8 3 / Binary64.ofInt 65536) / DataRate

/-- The local `sf_wx` of ParseBinary, as a double. -/
def sf_wx : Binary64 := (Binary64.ofScientific 8 3 / Binary64.ofInt 65536) / DataRate

/-- The local constant `pi` of ParseBinary, as a double. -/
def pi : Binary64 := Binary64.ofScientific 314159265358979323846 20

/-- The decoder `RawImuParser::ParseBinary` (rawimu.cpp, lines 47 to 83) with the scale
conversion of lines 61 to 80 computed in binary64. -/
def ParseBinary {BinaryHeader Rest : Type} (hparser : HeaderParser BinaryHeader Rest)
    (bin_msg : BinaryMessage BinaryHeader) : Except Failure (NovatelRawImu Rest) :=
  if bin_msg.data_.length ≠ BINARY_LENGTH then
    .error (Failure.ParseException
      ("Unexpected rawimu message size: " ++ toString bin_msg.data_.length))
  else do
    let header ← hparser.ParseBinary bin_msg
    let header := { header with message_name := "RAWIMUS" }
    let gps_week_num ← ParseUInt32 bin_msg.data_ 0
    let gps_seconds ← ParseDouble bin_msg.data_ 4
    let az ← ParseInt32 bin_msg.data_ 16
    let ay ← ParseInt32 bin_msg.data_ 20
    let ax ← ParseInt32 bin_msg.data_ 24
    let wz ← ParseInt32 bin_msg.data_ 28
    let wy ← ParseInt32 bin_msg.data_ 32
    let wx ← ParseInt32 bin_msg.data_ 36
    pure
      { novatel_msg_header := header
        gps_week_num := gps_week_num
        gps_seconds := gps_seconds
        linear_acceleration :=
          { z := (sf_az * DataRate * Binary64.ofInt az).toDouble
            y := (sf_ay * DataRate * Binary64.ofInt ay).toDouble
            x := (sf_ax * DataRate * Binary64.ofInt ax).toDouble }
        angular_velocity :=
          { z := (sf_wz * DataRate * Binary64.ofInt wz * pi
              / Binary64.ofScientific 1800 1).toDouble
            y := (sf_wy * DataRate * Binary64.ofInt wy * pi
              / Binary64.ofScientific 1800 1).toDouble
            x := (sf_wx * DataRate * Binary64.ofInt wx * pi
              / Binary64.ofScientific 1800 1).toDouble } }

end Rounded

end RawImuParser

end novatel_gps_driver

/-! ## Definitions used to state the properties -/

namespace novatel_gps_driver

/-- The signed 32-bit little-endian value held by the four bytes at offset `off`. -/
def int32At (data : List Byte) (off : Nat) : Int :=
  toInt32 (leValue ((data.drop off).take 4))

/-- Reads the digits of a decimal numeral, most significant first. -/
def digitsValue (acc : Nat) : List Char → Option Nat
  | [] => some acc
  | c :: cs =>
    if 48 ≤ c.toNat ∧ c.toNat ≤ 57 then digitsValue (10 * acc + (c.toNat - 48)) cs else none

/-- A sample string parser for unsigned decimal numerals: a nonempty string of digits. -/
def sampleParseNat (s : String) : Option Nat :=
  match s.data with
  | [] => none
  | c :: cs => digitsValue 0 (c :: cs)

/-- Sample string-to-number helpers, used to run the text decoder on concrete records:
both accept exactly the nonempty strings of decimal digits. -/
def sampleStringParsers : StringParsers :=
  { ParseUInt32 := sampleParseNat
    ParseDouble := fun s => (sampleParseNat s).map (fun n => Double.finite (n : ℚ)) }

/-- A sample header decoder that always succeeds: the binary one leaves the message name
empty, the text one takes it from the record. -/
def sampleHeaderParser : HeaderParser Unit Nat :=
  { ParseBinary := fun m => .ok { message_name := "", rest := m.crc_ }
    ParseAscii := fun s => .ok { message_name := s.id, rest := s.header.length } }

/-- The payload of the concrete scenario: week 2000, seconds 123456.5 (bit pattern
40FE240800000000), the integer 65536 at offset 24, zero in the five other integer slots;
the four bytes at offsets 12 to 15 are left free. -/
def scenarioData (b12 b13 b14 b15 : Byte) : List Byte :=
  [0xD0, 0x07, 0x00, 0x00,
   0x00, 0x00, 0x00, 0x00, 0x08, 0x24, 0xFE, 0x40,
   b12, b13, b14, b15,
   0x00, 0x00, 0x00, 0x00,
   0x00, 0x00, 0x00, 0x00,
   0x00, 0x00, 0x01, 0x00,
   0x00, 0x00, 0x00, 0x00,
   0x00, 0x00, 0x00, 0x00,
   0x00, 0x00, 0x00, 0x00]

/-- A 40-byte message with the six integer slots holding 1, 2, 3, 4, 5, 6. -/
def sampleBinaryMessage : BinaryMessage Unit :=
  { header_ := ()
    data_ :=
      [0xD0, 0x07, 0x00, 0x00,
       0x00, 0x00, 0x00, 0x00, 0x08, 0x24, 0xFE, 0x40,
       0xAA, 0xBB, 0xCC, 0xDD,
       0x01, 0x00, 0x00, 0x00,
       0x02, 0x00, 0x00, 0x00,
       0x03, 0x00, 0x00, 0x00,
       0x04, 0x00, 0x00, 0x00,
       0x05, 0x00, 0x00, 0x00,
       0x06, 0x00, 0x00, 0x00]
    crc_ := 0 }

/-- A message whose payload is too short: 3 bytes. -/
def shortBinaryMessage : BinaryMessage Unit :=
  { header_ := (), data_ := [0x01, 0x02, 0x03], crc_ := 0 }

/-- A well-formed text record with 9 body fields. -/
def sampleSentence : NovatelSentence :=
  { id := "RAWIMUSA"
    header := ["RAWIMUSA", "2000", "123456"]
    body := ["2000", "123456", "00000077", "64", "65", "66", "67", "68", "69"] }

/-- The sample record with field 1 replaced by a string that is not a number. -/
def badSentence : NovatelSentence :=
  { sampleSentence with
    body := ["2000", "notanumber", "00000077", "64", "65", "66", "67", "68", "69"] }

/-- A text record with 8 body fields. -/
def shortSentence : NovatelSentence :=
  { sampleSentence with body := ["2000", "123456", "00000077", "64", "65", "66", "67", "68"] }

/-- A 40-byte message whose six integer slots all hold 0, with week 2000, seconds
123456.5 and nonzero bytes at the offsets 12 to 15. -/
def zeroSlotsMessage : BinaryMessage Unit :=
  { header_ := (), data_ := (scenarioData 0xAA 0xBB 0xCC 0xDD).set 26 0x00, crc_ := 0 }

/-- A sample header decoder that always throws. -/
def failingHeaderParser : HeaderParser Unit Nat :=
  { ParseBinary := fun _ => .error (Failure.ParseException "Unexpected header length")
    ParseAscii := fun _ => .error (Failure.ParseException "Unexpected header field count") }

/-- The sample message with the slot at offset 16 holding FF FF FF FF. -/
def minusOneSlotMessage : BinaryMessage Unit :=
  { sampleBinaryMessage with
    data_ := (((sampleBinaryMessage.data_.set 16 0xFF).set 17 0xFF).set 18 0xFF).set 19 0xFF }

/-- The sample message with other bytes at the offsets 12 to 15. -/
def otherPaddingMessage : BinaryMessage Unit :=
  { sampleBinaryMessage with
    data_ := (((sampleBinaryMessage.data_.set 12 0x00).set 13 0x11).set 14 0x22).set 15 0x33 }

/-- The sample record with an empty field 2. -/
def emptyField2Sentence : NovatelSentence :=
  { sampleSentence with
    body := ["2000", "123456", "", "64", "65", "66", "67", "68", "69"] }

/-- The body of a decoded entity: everything but the header. -/
def bodyOf {Rest : Type} (e : NovatelRawImu Rest) : Nat × Double × Vector3 × Vector3 :=
  (e.gps_week_num, e.gps_seconds, e.linear_acceleration, e.angular_velocity)

/-- The byte offsets of the six sensor slots, in the order acceleration z, y, x, angular
velocity z, y, x. -/
def slotOffsets : List Nat := [16, 20, 24, 28, 32, 36]

/-- The six decoded sensor values of an entity, in the order of `slotOffsets`. -/
def sensorValues {Rest : Type} (e : NovatelRawImu Rest) : List Double :=
  [e.linear_acceleration.z, e.linear_acceleration.y, e.linear_acceleration.x,
   e.angular_velocity.z, e.angular_velocity.y, e.angular_velocity.x]

/-- Whether the characters `p` are the first characters of `cs`. -/
def startsWith : List Char → List Char → Bool
  | [], _ => true
  | _ :: _, [] => false
  | p :: ps, c :: cs => p == c && startsWith ps cs

/-- Whether the characters `p` occur consecutively somewhere in `cs`. -/
def occursIn (p : List Char) : List Char → Bool
  | [] => startsWith p []
  | c :: cs => startsWith p (c :: cs) || occursIn p cs

/-- The number denoted by a string of decimal digits, most significant first. -/
def decimalValue (acc : Nat) : List Char → Nat
  | [] => acc
  | c :: cs => decimalValue (10 * acc + (c.toNat - 48)) cs

end novatel_gps_driver

/-! ## Properties -/

namespace novatel_gps_driver

theorem readBytes_ok (data : List Byte) (off n : Nat) (h : off + n ≤ data.length) :
    readBytes data off n = .ok ((data.drop off).take n) := by
  simp [readBytes, h]

theorem ParseUInt32_ok (data : List Byte) (off : Nat) (h : off + 4 ≤ data.length) :
    ParseUInt32 data off = .ok (leValue ((data.drop off).take 4)) := by
  simp [ParseUInt32, readBytes_ok data off 4 h, Except.map]

theorem ParseInt32_ok (data : List Byte) (off : Nat) (h : off + 4 ≤ data.length) :
    ParseInt32 data off = .ok (int32At data off) := by
  simp [ParseInt32, int32At, readBytes_ok data off 4 h, Except.map]

theorem ParseDouble_ok (data : List Byte) (off : Nat) (h : off + 8 ≤ data.length) :
    ParseDouble data off = .ok (decodeBinary64 (leValue ((data.drop off).take 8))) := by
  simp [ParseDouble, readBytes_ok data off 8 h, Except.map]

namespace RawImuParser

/-- On a payload of the expected length, ParseBinary returns the header decoder failure or
the entity built from the decoded header and the six scaled slots. -/
theorem ParseBinary_of_length {BinaryHeader Rest : Type}
    (hparser : HeaderParser BinaryHeader Rest) (bin_msg : BinaryMessage BinaryHeader)
    (hlen : bin_msg.data_.length = BINARY_LENGTH) :
    ParseBinary hparser bin_msg =
      match hparser.ParseBinary bin_msg with
      | .error err => .error err
      | .ok h =>
        .ok
          { novatel_msg_header := { h with message_name := "RAWIMUS" }
            gps_week_num := leValue ((bin_msg.data_.drop 0).take 4)
            gps_seconds := decodeBinary64 (leValue ((bin_msg.data_.drop 4).take 8))
            linear_acceleration :=
              { z := Double.finite (sf_az * DataRate * (int32At bin_msg.data_ 16 : ℚ))
                y := Double.finite (sf_ay * DataRate * (int32At bin_msg.data_ 20 : ℚ))
                x := Double.finite (sf_ax * DataRate * (int32At bin_msg.data_ 24 : ℚ)) }
            angular_velocity :=
              { z := Double.finite (sf_wz * DataRate * (int32At bin_msg.data_ 28 : ℚ) * pi / 180.0)
                y := Double.finite (sf_wy * DataRate * (int32At bin_msg.data_ 32 : ℚ) * pi / 180.0)
                x := Double.finite
                  (sf_wx * DataRate * (int32At bin_msg.data_ 36 : ℚ) * pi / 180.0) } } := by
  have h40 : bin_msg.data_.length = 40 := hlen
  unfold ParseBinary
  rw [if_neg (by simp [hlen])]
  cases hh : hparser.ParseBinary bin_msg with
  | error e => rfl
  | ok h =>
    rw [ParseUInt32_ok _ 0 (by omega), ParseDouble_ok _ 4 (by omega),
      ParseInt32_ok _ 16 (by omega), ParseInt32_ok _ 20 (by omega),
      ParseInt32_ok _ 24 (by omega), ParseInt32_ok _ 28 (by omega),
      ParseInt32_ok _ 32 (by omega), ParseInt32_ok _ 36 (by omega)]
    rfl

/-- C1: a binary message whose data length differs from BINARY_LENGTH (40) makes
ParseBinary throw the unexpected-size exception, carrying the actual size, for every header
decoder: no entity is returned and the outcome does not depend on the header decoder. -/
theorem C1_ParseBinary_unexpected_length {BinaryHeader Rest : Type}
    (hparser : HeaderParser BinaryHeader Rest) (bin_msg : BinaryMessage BinaryHeader)
    (hlen : bin_msg.data_.length ≠ 40) :
    ParseBinary hparser bin_msg =
      .error (Failure.ParseException
        ("Unexpected rawimu message size: " ++ toString bin_msg.data_.length)) := by
  unfold ParseBinary
  rw [if_pos (by simpa [BINARY_LENGTH] using hlen)]

theorem C1_ParseBinary_unexpected_length_witness :
    shortBinaryMessage.data_.length ≠ 40 ∧
      ParseBinary sampleHeaderParser shortBinaryMessage =
        .error (Failure.ParseException "Unexpected rawimu message size: 3") :=
  ⟨by decide, C1_ParseBinary_unexpected_length sampleHeaderParser shortBinaryMessage (by decide)⟩

/-- C2: on a binary message of exactly BINARY_LENGTH bytes ParseBinary returns an entity
whenever the header decoder returns a header, whatever the bytes are; the only failure it
can end with is the failure of the header decoder; and two calls on equal bytes with equal
header decoder results return equal results. -/
theorem C2_ParseBinary_succeeds_deterministic {BinaryHeader Rest : Type}
    (hparser : HeaderParser BinaryHeader Rest) (bin_msg : BinaryMessage BinaryHeader)
    (hlen : bin_msg.data_.length = BINARY_LENGTH) :
    (∀ h, hparser.ParseBinary bin_msg = .ok h →
        ∃ e, ParseBinary hparser bin_msg = .ok e) ∧
      (∀ err, ParseBinary hparser bin_msg = .error err →
        hparser.ParseBinary bin_msg = .error err) ∧
      (∀ (hparser2 : HeaderParser BinaryHeader Rest) (bin_msg2 : BinaryMessage BinaryHeader),
        bin_msg2.data_ = bin_msg.data_ →
        hparser2.ParseBinary bin_msg2 = hparser.ParseBinary bin_msg →
        ParseBinary hparser2 bin_msg2 = ParseBinary hparser bin_msg) := by
  refine ⟨?_, ?_, ?_⟩
  · intro h hh
    rw [ParseBinary_of_length hparser bin_msg hlen, hh]
    exact ⟨_, rfl⟩
  · intro err herr
    rw [ParseBinary_of_length hparser bin_msg hlen] at herr
    cases hh : hparser.ParseBinary bin_msg with
    | error e0 =>
      rw [hh] at herr
      simpa using herr
    | ok h =>
      rw [hh] at herr
      simp at herr
  · intro hparser2 bin_msg2 hdata hhdr
    have hlen2 : bin_msg2.data_.length = BINARY_LENGTH := by rw [hdata]; exact hlen
    rw [ParseBinary_of_length hparser bin_msg hlen,
      ParseBinary_of_length hparser2 bin_msg2 hlen2, hhdr, hdata]

theorem C2_ParseBinary_succeeds_deterministic_witness :
    sampleBinaryMessage.data_.length = BINARY_LENGTH ∧
      ∃ e, ParseBinary sampleHeaderParser sampleBinaryMessage = .ok e :=
  ⟨by decide,
    (C2_ParseBinary_succeeds_deterministic sampleHeaderParser sampleBinaryMessage
      (by decide)).1 _ rfl⟩

/-- Bytes that agree at the offsets `off` to `off + 3` give the same four-byte window. -/
theorem window_eq_of_agree (d1 d2 : List Byte) (off : Nat)
    (h : ∀ i, off ≤ i → i < off + 4 → d1[i]? = d2[i]?) :
    (d1.drop off).take 4 = (d2.drop off).take 4 := by
  apply List.ext_getElem?
  intro n
  by_cases hn : n < 4
  · rw [List.getElem?_take_of_lt hn, List.getElem?_take_of_lt hn, List.getElem?_drop,
      List.getElem?_drop]
    exact h (off + n) (by omega) (by omega)
  · rw [List.getElem?_take_eq_none (by omega), List.getElem?_take_eq_none (by omega)]

/-- C3: on a 40-byte message the three accelerations z, y, x are computed from the signed
32-bit values at the offsets 16, 20, 24 and the three angular velocities z, y, x from those
at the offsets 28, 32, 36; the acceleration z is the same for every 40-byte message that
has the same bytes at the offsets 16 to 19, whatever its other bytes (those at 24 to 27
included) and its header are. -/
theorem C3_ParseBinary_axis_order {BinaryHeader Rest : Type}
    (hparser : HeaderParser BinaryHeader Rest) (bin_msg : BinaryMessage BinaryHeader)
    (h : NovatelMessageHeader Rest)
    (hlen : bin_msg.data_.length = 40)
    (hh : hparser.ParseBinary bin_msg = .ok h) :
    ∃ e, ParseBinary hparser bin_msg = .ok e ∧
      e.linear_acceleration.z =
        Double.finite (sf_az * DataRate * (int32At bin_msg.data_ 16 : ℚ)) ∧
      e.linear_acceleration.y =
        Double.finite (sf_ay * DataRate * (int32At bin_msg.data_ 20 : ℚ)) ∧
      e.linear_acceleration.x =
        Double.finite (sf_ax * DataRate * (int32At bin_msg.data_ 24 : ℚ)) ∧
      e.angular_velocity.z =
        Double.finite (sf_wz * DataRate * (int32At bin_msg.data_ 28 : ℚ) * pi / 180.0) ∧
      e.angular_velocity.y =
        Double.finite (sf_wy * DataRate * (int32At bin_msg.data_ 32 : ℚ) * pi / 180.0) ∧
      e.angular_velocity.x =
        Double.finite (sf_wx * DataRate * (int32At bin_msg.data_ 36 : ℚ) * pi / 180.0) ∧
      ∀ (hparser2 : HeaderParser BinaryHeader Rest) (bin_msg2 : BinaryMessage BinaryHeader)
        (e2 : NovatelRawImu Rest),
        bin_msg2.data_.length = 40 →
        (∀ i, 16 ≤ i → i < 20 → bin_msg2.data_[i]? = bin_msg.data_[i]?) →
        ParseBinary hparser2 bin_msg2 = .ok e2 →
        e2.linear_acceleration.z = e.linear_acceleration.z := by
  have he := ParseBinary_of_length hparser bin_msg hlen
  rw [hh] at he
  refine ⟨_, he, rfl, rfl, rfl, rfl, rfl, rfl, ?_⟩
  · intro hparser2 bin_msg2 e2 hlen2 hagree he2
    rw [ParseBinary_of_length hparser2 bin_msg2 hlen2] at he2
    cases hh2 : hparser2.ParseBinary bin_msg2 with
    | error e0 =>
      rw [hh2] at he2
      simp at he2
    | ok h2 =>
      rw [hh2] at he2
      simp only [Except.ok.injEq] at he2
      subst he2
      have hw := window_eq_of_agree bin_msg2.data_ bin_msg.data_ 16 hagree
      simp only [int32At, hw]

theorem C3_ParseBinary_axis_order_witness :
    ∃ e, ParseBinary sampleHeaderParser sampleBinaryMessage = .ok e ∧
      e.linear_acceleration.z = Double.finite (sf_az * DataRate * 1) ∧
      e.linear_acceleration.x = Double.finite (sf_ax * DataRate * 3) := by
  obtain ⟨e, he, hz, _, hx, _⟩ :=
    C3_ParseBinary_axis_order sampleHeaderParser sampleBinaryMessage
      { message_name := "", rest := 0 } (by decide) rfl
  refine ⟨e, he, ?_, ?_⟩
  · rw [hz]
    have : int32At sampleBinaryMessage.data_ 16 = 1 := by decide
    rw [this]
    norm_num
  · rw [hx]
    have : int32At sampleBinaryMessage.data_ 24 = 3 := by decide
    rw [this]
    norm_num

/-- The acceleration conversion, with the data rate cancelled. -/
theorem accel_scale_eq (r : ℚ) :
    sf_az * DataRate * r = r * (0.200 / 65536) * (9.80665 / 1000) ∧
      sf_ay * DataRate * r = r * (0.200 / 65536) * (9.80665 / 1000) ∧
      sf_ax * DataRate * r = r * (0.200 / 65536) * (9.80665 / 1000) := by
  simp only [sf_az, sf_ay, sf_ax, DataRate, ONE_G]
  refine ⟨?_, ?_, ?_⟩ <;> ring

/-- The angular velocity conversion, with the data rate cancelled. -/
theorem gyro_scale_eq (r : ℚ) :
    sf_wz * DataRate * r * pi / 180.0 = r * (0.008 / 65536) * pi / 180 ∧
      sf_wy * DataRate * r * pi / 180.0 = r * (0.008 / 65536) * pi / 180 ∧
      sf_wx * DataRate * r * pi / 180.0 = r * (0.008 / 65536) * pi / 180 := by
  simp only [sf_wz, sf_wy, sf_wx, DataRate]
  refine ⟨?_, ?_, ?_⟩ <;> ring

/-- C4: in exact rational arithmetic, for the raw count r of each acceleration slot of a
40-byte message (offsets 16, 20, 24 for z, y, x), ParseBinary yields
r * scale_factor * data_rate with scale_factor = (0.200/65536) * (9.80665/1000) / data_rate
and data_rate = 125; this equals r * (0.200/65536) * (9.80665/1000), and the same value is
obtained with any nonzero data rate in place of 125; the factor is the same on the three
axes. -/
theorem C4_ParseBinary_acceleration_scale {BinaryHeader Rest : Type}
    (hparser : HeaderParser BinaryHeader Rest) (bin_msg : BinaryMessage BinaryHeader)
    (h : NovatelMessageHeader Rest)
    (hlen : bin_msg.data_.length = 40)
    (hh : hparser.ParseBinary bin_msg = .ok h) :
    ∃ e, ParseBinary hparser bin_msg = .ok e ∧
      (e.linear_acceleration.z = Double.finite
          ((int32At bin_msg.data_ 16 : ℚ) * ((0.200 / 65536) * (9.80665 / 1000) / 125) * 125) ∧
        e.linear_acceleration.y = Double.finite
          ((int32At bin_msg.data_ 20 : ℚ) * ((0.200 / 65536) * (9.80665 / 1000) / 125) * 125) ∧
        e.linear_acceleration.x = Double.finite
          ((int32At bin_msg.data_ 24 : ℚ) * ((0.200 / 65536) * (9.80665 / 1000) / 125) * 125)) ∧
      (e.linear_acceleration.z = Double.finite
          ((int32At bin_msg.data_ 16 : ℚ) * (0.200 / 65536) * (9.80665 / 1000)) ∧
        e.linear_acceleration.y = Double.finite
          ((int32At bin_msg.data_ 20 : ℚ) * (0.200 / 65536) * (9.80665 / 1000)) ∧
        e.linear_acceleration.x = Double.finite
          ((int32At bin_msg.data_ 24 : ℚ) * (0.200 / 65536) * (9.80665 / 1000))) ∧
      ∀ d : ℚ, d ≠ 0 →
        e.linear_acceleration.z = Double.finite
          ((int32At bin_msg.data_ 16 : ℚ) * ((0.200 / 65536) * (9.80665 / 1000) / d) * d) ∧
        e.linear_acceleration.y = Double.finite
          ((int32At bin_msg.data_ 20 : ℚ) * ((0.200 / 65536) * (9.80665 / 1000) / d) * d) ∧
        e.linear_acceleration.x = Double.finite
          ((int32At bin_msg.data_ 24 : ℚ) * ((0.200 / 65536) * (9.80665 / 1000) / d) * d) := by
  have he := ParseBinary_of_length hparser bin_msg hlen
  rw [hh] at he
  refine ⟨_, he, ⟨?_, ?_, ?_⟩, ⟨?_, ?_, ?_⟩, ?_⟩
  · rw [(accel_scale_eq _).1, Double.finite.injEq]; ring
  · rw [(accel_scale_eq _).2.1, Double.finite.injEq]; ring
  · rw [(accel_scale_eq _).2.2, Double.finite.injEq]; ring
  · rw [(accel_scale_eq _).1]
  · rw [(accel_scale_eq _).2.1]
  · rw [(accel_scale_eq _).2.2]
  · intro d hd
    refine ⟨?_, ?_, ?_⟩
    · rw [(accel_scale_eq _).1, Double.finite.injEq]; field_simp; ring
    · rw [(accel_scale_eq _).2.1, Double.finite.injEq]; field_simp; ring
    · rw [(accel_scale_eq _).2.2, Double.finite.injEq]; field_simp; ring

theorem C4_ParseBinary_acceleration_scale_witness :
    ∃ e, ParseBinary sampleHeaderParser sampleBinaryMessage = .ok e ∧
      e.linear_acceleration.y = Double.finite (2 * (0.200 / 65536) * (9.80665 / 1000)) := by
  obtain ⟨e, he, _, ⟨_, hy, _⟩, _⟩ :=
    C4_ParseBinary_acceleration_scale sampleHeaderParser sampleBinaryMessage
      { message_name := "", rest := 0 } (by decide) rfl
  refine ⟨e, he, ?_⟩
  rw [hy]
  have : int32At sampleBinaryMessage.data_ 20 = 2 := by decide
  rw [this]
  norm_num

/-- C6: for the 40-byte payload with week 2000 at offset 0, the double 123456.5 at offset
4, the integer 65536 at offset 24 and 0 in the five other integer slots (any bytes at the
offsets 12 to 15), ParseBinary returns week number 2000, seconds 123456.5, acceleration x
equal to 0.200 * (9.80665/1000) exactly, and zero for acceleration y and z and for the
three angular velocities. -/
theorem C6_ParseBinary_scenario {BinaryHeader Rest : Type}
    (hparser : HeaderParser BinaryHeader Rest) (bin_msg : BinaryMessage BinaryHeader)
    (h : NovatelMessageHeader Rest) (b12 b13 b14 b15 : Byte)
    (hdata : bin_msg.data_ = scenarioData b12 b13 b14 b15)
    (hh : hparser.ParseBinary bin_msg = .ok h) :
    ∃ e, ParseBinary hparser bin_msg = .ok e ∧
      e.gps_week_num = 2000 ∧
      e.gps_seconds = Double.finite 123456.5 ∧
      e.linear_acceleration.x = Double.finite (0.200 * (9.80665 / 1000)) ∧
      e.linear_acceleration.y = Double.finite 0 ∧
      e.linear_acceleration.z = Double.finite 0 ∧
      e.angular_velocity.x = Double.finite 0 ∧
      e.angular_velocity.y = Double.finite 0 ∧
      e.angular_velocity.z = Double.finite 0 := by
  have hlen : bin_msg.data_.length = BINARY_LENGTH := by rw [hdata]; rfl
  have he := ParseBinary_of_length hparser bin_msg hlen
  rw [hh, hdata] at he
  have hweek : leValue (((scenarioData b12 b13 b14 b15).drop 0).take 4) = 2000 := by
    simp [scenarioData, leValue]
    decide
  have hbits : leValue (((scenarioData b12 b13 b14 b15).drop 4).take 8)
      = 0x40FE240800000000 := by
    simp [scenarioData, leValue]
    decide
  have h16 : int32At (scenarioData b12 b13 b14 b15) 16 = 0 := rfl
  have h20 : int32At (scenarioData b12 b13 b14 b15) 20 = 0 := rfl
  have h24 : int32At (scenarioData b12 b13 b14 b15) 24 = 65536 := by
    simp [scenarioData, leValue, int32At, toInt32]
  have h28 : int32At (scenarioData b12 b13 b14 b15) 28 = 0 := rfl
  have h32 : int32At (scenarioData b12 b13 b14 b15) 32 = 0 := rfl
  have h36 : int32At (scenarioData b12 b13 b14 b15) 36 = 0 := rfl
  refine ⟨_, he, hweek, ?_, ?_, ?_, ?_, ?_, ?_, ?_⟩
  · show decodeBinary64 _ = _
    rw [hbits]
    simp [decodeBinary64]
    norm_num
  · show Double.finite _ = Double.finite _
    rw [(accel_scale_eq _).2.2, h24, Double.finite.injEq]
    norm_num
  · show Double.finite _ = Double.finite _
    rw [h20]; simp
  · show Double.finite _ = Double.finite _
    rw [h16]; simp
  · show Double.finite _ = Double.finite _
    rw [h36]; simp
  · show Double.finite _ = Double.finite _
    rw [h32]; simp
  · show Double.finite _ = Double.finite _
    rw [h28]; simp

theorem C6_ParseBinary_scenario_witness :
    ∃ e, ParseBinary sampleHeaderParser
        { header_ := (), data_ := scenarioData 0xAA 0xBB 0xCC 0xDD, crc_ := 5 } = .ok e ∧
      e.gps_week_num = 2000 ∧
      e.gps_seconds = Double.finite 123456.5 ∧
      e.linear_acceleration.x = Double.finite (0.200 * (9.80665 / 1000)) := by
  obtain ⟨e, he, hw, hs, hx, _⟩ :=
    C6_ParseBinary_scenario sampleHeaderParser
      { header_ := (), data_ := scenarioData 0xAA 0xBB 0xCC 0xDD, crc_ := 5 }
      { message_name := "", rest := 5 } 0xAA 0xBB 0xCC 0xDD rfl rfl
  exact ⟨e, he, hw, hs, hx⟩

/-- On a record with 9 body fields, ParseAscii returns the header decoder failure, or the
parse failure when some flag is unset, or the message holding the header and the parsed
values. -/
theorem ParseAscii_of_body {BinaryHeader Rest : Type}
    (hparser : HeaderParser BinaryHeader Rest) (sp : StringParsers)
    (sentence : NovatelSentence) (f0 f1 f2 f3 f4 f5 f6 f7 f8 : String)
    (hbody : sentence.body = [f0, f1, f2, f3, f4, f5, f6, f7, f8]) :
    ParseAscii hparser sp sentence =
      match hparser.ParseAscii sentence with
      | .error err => .error err
      | .ok h =>
        if ((sp.ParseUInt32 f0).isSome && (sp.ParseDouble f1).isSome &&
            (sp.ParseDouble f3).isSome && (sp.ParseDouble f4).isSome &&
            (sp.ParseDouble f5).isSome && (sp.ParseDouble f6).isSome &&
            (sp.ParseDouble f7).isSome && (sp.ParseDouble f8).isSome) = true then
          .ok
            { novatel_msg_header := h
              gps_week_num := (sp.ParseUInt32 f0).getD 0
              gps_seconds := (sp.ParseDouble f1).getD (Double.finite 0)
              linear_acceleration :=
                { z := (sp.ParseDouble f3).getD (Double.finite 0)
                  y := (sp.ParseDouble f4).getD (Double.finite 0)
                  x := (sp.ParseDouble f5).getD (Double.finite 0) }
              angular_velocity :=
                { z := (sp.ParseDouble f6).getD (Double.finite 0)
                  y := (sp.ParseDouble f7).getD (Double.finite 0)
                  x := (sp.ParseDouble f8).getD (Double.finite 0) } }
        else .error (Failure.ParseException "Error parsing RAWIMUS log.") := by
  unfold ParseAscii
  rw [if_neg (by simp [hbody, ASCII_FIELDS])]
  cases hh : hparser.ParseAscii sentence with
  | error e => rfl
  | ok h =>
    simp only [hbody, field, bind, Except.bind, pure, Except.pure, List.get?]
    by_cases hv : ((sp.ParseUInt32 f0).isSome && (sp.ParseDouble f1).isSome &&
            (sp.ParseDouble f3).isSome && (sp.ParseDouble f4).isSome &&
            (sp.ParseDouble f5).isSome && (sp.ParseDouble f6).isSome &&
            (sp.ParseDouble f7).isSome && (sp.ParseDouble f8).isSome) = true
    · simp [hv]
    · simp [hv]

/-- A list of 9 strings, spelled out. -/
theorem body_of_length (l : List String) (h : l.length = 9) :
    ∃ f0 f1 f2 f3 f4 f5 f6 f7 f8, l = [f0, f1, f2, f3, f4, f5, f6, f7, f8] := by
  rcases l with _ | ⟨f0, _ | ⟨f1, _ | ⟨f2, _ | ⟨f3, _ | ⟨f4, _ | ⟨f5, _ | ⟨f6, _ | ⟨f7,
    _ | ⟨f8, _ | ⟨f9, l⟩⟩⟩⟩⟩⟩⟩⟩⟩⟩ <;>
  first
  | exact ⟨_, _, _, _, _, _, _, _, _, rfl⟩
  | (simp at h)

/-- The header of an entity returned by ParseBinary is the decoded header with the message
name replaced by the literal RAWIMUS. -/
theorem ParseBinary_header {BinaryHeader Rest : Type}
    (hparser : HeaderParser BinaryHeader Rest) (bin_msg : BinaryMessage BinaryHeader)
    (e : NovatelRawImu Rest) (he : ParseBinary hparser bin_msg = .ok e) :
    ∃ h, hparser.ParseBinary bin_msg = .ok h ∧
      e.novatel_msg_header = { h with message_name := "RAWIMUS" } := by
  by_cases hlen : bin_msg.data_.length = BINARY_LENGTH
  · rw [ParseBinary_of_length hparser bin_msg hlen] at he
    cases hh : hparser.ParseBinary bin_msg with
    | error e0 =>
      rw [hh] at he
      simp at he
    | ok h =>
      rw [hh] at he
      simp only [Except.ok.injEq] at he
      subst he
      exact ⟨h, rfl, rfl⟩
  · unfold ParseBinary at he
    rw [if_pos hlen] at he
    simp at he

/-- The header of an entity returned by ParseAscii is the decoded header, unchanged. -/
theorem ParseAscii_header {BinaryHeader Rest : Type}
    (hparser : HeaderParser BinaryHeader Rest) (sp : StringParsers)
    (sentence : NovatelSentence)
    (e : NovatelRawImu Rest) (he : ParseAscii hparser sp sentence = .ok e) :
    hparser.ParseAscii sentence = .ok e.novatel_msg_header := by
  by_cases hlen : sentence.body.length = ASCII_FIELDS
  · obtain ⟨f0, f1, f2, f3, f4, f5, f6, f7, f8, hbody⟩ := body_of_length _ hlen
    rw [ParseAscii_of_body hparser sp sentence f0 f1 f2 f3 f4 f5 f6 f7 f8 hbody] at he
    cases hh : hparser.ParseAscii sentence with
    | error e0 =>
      rw [hh] at he
      simp at he
    | ok h =>
      rw [hh] at he
      simp only at he
      split at he
      · simp only [Except.ok.injEq] at he
        subst he
        rfl
      · simp at he
  · unfold ParseAscii at he
    rw [if_pos hlen] at he
    simp at he

/-- When the header decoder and the eight field parsers succeed on a record with 9 body
fields, ParseAscii returns the message holding the header and the parsed values. -/
theorem ParseAscii_ok {BinaryHeader Rest : Type}
    (hparser : HeaderParser BinaryHeader Rest) (sp : StringParsers)
    (sentence : NovatelSentence) (h : NovatelMessageHeader Rest)
    (f0 f1 f2 f3 f4 f5 f6 f7 f8 : String) (week : Nat) (seconds az ay ax wz wy wx : Double)
    (hbody : sentence.body = [f0, f1, f2, f3, f4, f5, f6, f7, f8])
    (hh : hparser.ParseAscii sentence = .ok h)
    (h0 : sp.ParseUInt32 f0 = some week) (h1 : sp.ParseDouble f1 = some seconds)
    (h3 : sp.ParseDouble f3 = some az) (h4 : sp.ParseDouble f4 = some ay)
    (h5 : sp.ParseDouble f5 = some ax) (h6 : sp.ParseDouble f6 = some wz)
    (h7 : sp.ParseDouble f7 = some wy) (h8 : sp.ParseDouble f8 = some wx) :
    ParseAscii hparser sp sentence =
      .ok
        { novatel_msg_header := h
          gps_week_num := week
          gps_seconds := seconds
          linear_acceleration := { z := az, y := ay, x := ax }
          angular_velocity := { z := wz, y := wy, x := wx } } := by
  rw [ParseAscii_of_body hparser sp sentence f0 f1 f2 f3 f4 f5 f6 f7 f8 hbody, hh]
  simp [h0, h1, h3, h4, h5, h6, h7, h8]

/-- C7, as stated, fails on the text path: on the sample record the header decoder returns
the message name RAWIMUSA and the entity returned by ParseAscii keeps that name; it is not
replaced by the literal RAWIMUS. -/
theorem C7_ParseAscii_message_name_counterexample :
    ∃ (e : NovatelRawImu Nat) (h : NovatelMessageHeader Nat),
      ParseAscii sampleHeaderParser sampleStringParsers sampleSentence = .ok e ∧
      sampleHeaderParser.ParseAscii sampleSentence = .ok h ∧
      e.novatel_msg_header.message_name = "RAWIMUSA" ∧
      e.novatel_msg_header ≠ { h with message_name := "RAWIMUS" } := by
  have he := ParseAscii_ok sampleHeaderParser sampleStringParsers sampleSentence
    { message_name := "RAWIMUSA", rest := 3 }
    "2000" "123456" "00000077" "64" "65" "66" "67" "68" "69"
    2000 (Double.finite 123456) (Double.finite 64) (Double.finite 65) (Double.finite 66)
    (Double.finite 67) (Double.finite 68) (Double.finite 69)
    rfl rfl (by decide) (by decide) (by decide) (by decide) (by decide) (by decide)
    (by decide) (by decide)
  refine ⟨_, _, he, rfl, rfl, ?_⟩
  intro hcontra
  have hname := congrArg NovatelMessageHeader.message_name hcontra
  revert hname
  decide

/-- C7, amended: the header of an entity returned by ParseBinary is the result of the
header decoder on the same message with only the message name replaced by the literal
RAWIMUS (every other field unchanged); the header of an entity returned by ParseAscii is
the result of the header decoder on the same record, with no field changed. -/
theorem C7_header_of_decoded_entity {BinaryHeader Rest : Type}
    (hparser : HeaderParser BinaryHeader Rest) (sp : StringParsers) :
    (∀ (bin_msg : BinaryMessage BinaryHeader) (e : NovatelRawImu Rest),
        ParseBinary hparser bin_msg = .ok e →
        ∃ h, hparser.ParseBinary bin_msg = .ok h ∧
          e.novatel_msg_header.message_name = "RAWIMUS" ∧
          e.novatel_msg_header.rest = h.rest ∧
          e.novatel_msg_header = { h with message_name := "RAWIMUS" }) ∧
      (∀ (sentence : NovatelSentence) (e : NovatelRawImu Rest),
        ParseAscii hparser sp sentence = .ok e →
        hparser.ParseAscii sentence = .ok e.novatel_msg_header) := by
  constructor
  · intro bin_msg e he
    obtain ⟨h, hh, hhdr⟩ := ParseBinary_header hparser bin_msg e he
    refine ⟨h, hh, ?_, ?_, hhdr⟩
    · rw [hhdr]
    · rw [hhdr]
  · intro sentence e he
    exact ParseAscii_header hparser sp sentence e he

theorem C7_header_of_decoded_entity_witness :
    (∃ h, sampleHeaderParser.ParseBinary sampleBinaryMessage = .ok h ∧
      h.message_name = "" ∧
      ∃ e, ParseBinary sampleHeaderParser sampleBinaryMessage = .ok e ∧
        e.novatel_msg_header.message_name = "RAWIMUS" ∧
        e.novatel_msg_header.rest = h.rest) ∧
    (∃ e, ParseAscii sampleHeaderParser sampleStringParsers sampleSentence = .ok e ∧
      sampleHeaderParser.ParseAscii sampleSentence = .ok e.novatel_msg_header) := by
  constructor
  · obtain ⟨e, he⟩ :
        ∃ e, ParseBinary sampleHeaderParser sampleBinaryMessage = .ok e := by
      rw [ParseBinary_of_length sampleHeaderParser sampleBinaryMessage (by decide)]
      exact ⟨_, rfl⟩
    obtain ⟨h, hh, hname, hrest, _⟩ :=
      (C7_header_of_decoded_entity sampleHeaderParser sampleStringParsers).1
        sampleBinaryMessage e he
    refine ⟨h, hh, ?_, e, he, hname, hrest⟩
    have hh2 : sampleHeaderParser.ParseBinary sampleBinaryMessage =
        .ok { message_name := "", rest := 0 } := rfl
    rw [hh2] at hh
    simp only [Except.ok.injEq] at hh
    rw [← hh]
  · have he := ParseAscii_ok sampleHeaderParser sampleStringParsers sampleSentence
      { message_name := "RAWIMUSA", rest := 3 }
      "2000" "123456" "00000077" "64" "65" "66" "67" "68" "69"
      2000 (Double.finite 123456) (Double.finite 64) (Double.finite 65) (Double.finite 66)
      (Double.finite 67) (Double.finite 68) (Double.finite 69)
      rfl rfl (by decide) (by decide) (by decide) (by decide) (by decide) (by decide)
      (by decide) (by decide)
    exact ⟨_, he,
      (C7_header_of_decoded_entity sampleHeaderParser sampleStringParsers).2
        sampleSentence _ he⟩

/-- C8: a text record whose number of body fields differs from ASCII_FIELDS (9) makes
ParseAscii throw the unexpected-number-of-fields exception, carrying the actual number, for
every header decoder, every pair of field parsers and every content of the fields: no
entity is returned. -/
theorem C8_ParseAscii_unexpected_field_count {BinaryHeader Rest : Type}
    (hparser : HeaderParser BinaryHeader Rest) (sp : StringParsers)
    (sentence : NovatelSentence)
    (hlen : sentence.body.length ≠ 9) :
    ParseAscii hparser sp sentence =
      .error (Failure.ParseException
        ("Unexpected number of fields in RAWIMUS log: " ++ toString sentence.body.length)) := by
  unfold ParseAscii
  rw [if_pos (by simpa [ASCII_FIELDS] using hlen)]

theorem C8_ParseAscii_unexpected_field_count_witness :
    shortSentence.body.length ≠ 9 ∧
      ParseAscii sampleHeaderParser sampleStringParsers shortSentence =
        .error (Failure.ParseException "Unexpected number of fields in RAWIMUS log: 8") :=
  ⟨by decide,
    C8_ParseAscii_unexpected_field_count sampleHeaderParser sampleStringParsers shortSentence
      (by decide)⟩

/-- C9: on a text record with 9 body fields on which the header decoder succeeds,
ParseAscii throws the parse-error exception if and only if at least one of the fields 0, 1,
3, 4, 5, 6, 7, 8 fails to parse (field 0 as unsigned integer, the others as double),
whichever and however many they are; and it returns an entity if and only if none of them
fails. -/
theorem C9_ParseAscii_field_parse_failure {BinaryHeader Rest : Type}
    (hparser : HeaderParser BinaryHeader Rest) (sp : StringParsers)
    (sentence : NovatelSentence) (h : NovatelMessageHeader Rest)
    (f0 f1 f2 f3 f4 f5 f6 f7 f8 : String)
    (hbody : sentence.body = [f0, f1, f2, f3, f4, f5, f6, f7, f8])
    (hh : hparser.ParseAscii sentence = .ok h) :
    (ParseAscii hparser sp sentence =
        .error (Failure.ParseException "Error parsing RAWIMUS log.") ↔
      (sp.ParseUInt32 f0 = none ∨ sp.ParseDouble f1 = none ∨ sp.ParseDouble f3 = none ∨
        sp.ParseDouble f4 = none ∨ sp.ParseDouble f5 = none ∨ sp.ParseDouble f6 = none ∨
        sp.ParseDouble f7 = none ∨ sp.ParseDouble f8 = none)) ∧
    ((∃ e, ParseAscii hparser sp sentence = .ok e) ↔
      ¬ (sp.ParseUInt32 f0 = none ∨ sp.ParseDouble f1 = none ∨ sp.ParseDouble f3 = none ∨
        sp.ParseDouble f4 = none ∨ sp.ParseDouble f5 = none ∨ sp.ParseDouble f6 = none ∨
        sp.ParseDouble f7 = none ∨ sp.ParseDouble f8 = none)) := by
  rw [ParseAscii_of_body hparser sp sentence f0 f1 f2 f3 f4 f5 f6 f7 f8 hbody, hh]
  simp only
  by_cases hv : ((sp.ParseUInt32 f0).isSome && (sp.ParseDouble f1).isSome &&
            (sp.ParseDouble f3).isSome && (sp.ParseDouble f4).isSome &&
            (sp.ParseDouble f5).isSome && (sp.ParseDouble f6).isSome &&
            (sp.ParseDouble f7).isSome && (sp.ParseDouble f8).isSome) = true
  · rw [if_pos hv]
    simp only [Bool.and_eq_true, Option.isSome_iff_exists] at hv
    obtain ⟨⟨⟨⟨⟨⟨⟨⟨v0, h0⟩, ⟨v1, h1⟩⟩, ⟨v3, h3⟩⟩, ⟨v4, h4⟩⟩, ⟨v5, h5⟩⟩, ⟨v6, h6⟩⟩,
      ⟨v7, h7⟩⟩, ⟨v8, h8⟩⟩ := hv
    simp [h0, h1, h3, h4, h5, h6, h7, h8]
  · rw [if_neg hv]
    have hsome : ¬ (sp.ParseUInt32 f0 = none ∨ sp.ParseDouble f1 = none ∨
        sp.ParseDouble f3 = none ∨ sp.ParseDouble f4 = none ∨ sp.ParseDouble f5 = none ∨
        sp.ParseDouble f6 = none ∨ sp.ParseDouble f7 = none ∨ sp.ParseDouble f8 = none) →
        False := by
      intro hnone
      apply hv
      simp only [not_or, ← ne_eq, Option.ne_none_iff_isSome] at hnone
      obtain ⟨h0, h1, h3, h4, h5, h6, h7, h8⟩ := hnone
      simp [h0, h1, h3, h4, h5, h6, h7, h8]
    have hdisj := Classical.not_not.mp hsome
    simp [hdisj]

theorem C9_ParseAscii_field_parse_failure_witness :
    badSentence.body.get? 1 = some "notanumber" ∧
      sampleStringParsers.ParseDouble "notanumber" = none ∧
      ParseAscii sampleHeaderParser sampleStringParsers badSentence =
        .error (Failure.ParseException "Error parsing RAWIMUS log.") :=
  ⟨rfl, by decide,
    (C9_ParseAscii_field_parse_failure sampleHeaderParser sampleStringParsers badSentence
      { message_name := "RAWIMUSA", rest := 3 }
      "2000" "notanumber" "00000077" "64" "65" "66" "67" "68" "69" rfl rfl).1.2
      (Or.inr (Or.inl (by decide)))⟩

/-- C10: on a text record with 9 body fields in which the fields 0, 1, 3, 4, 5, 6, 7, 8 all
parse (and on which the header decoder succeeds), ParseAscii returns the entity whose week
number is the parsed field 0, whose seconds are the parsed field 1, whose accelerations z,
y, x are the parsed fields 3, 4, 5 and whose angular velocities z, y, x are the parsed
fields 6, 7, 8, each value as parsed: no scale factor, data rate or degree-to-radian
conversion is applied. -/
theorem C10_ParseAscii_fields_as_parsed {BinaryHeader Rest : Type}
    (hparser : HeaderParser BinaryHeader Rest) (sp : StringParsers)
    (sentence : NovatelSentence) (h : NovatelMessageHeader Rest)
    (f0 f1 f2 f3 f4 f5 f6 f7 f8 : String) (week : Nat) (seconds az ay ax wz wy wx : Double)
    (hbody : sentence.body = [f0, f1, f2, f3, f4, f5, f6, f7, f8])
    (hh : hparser.ParseAscii sentence = .ok h)
    (h0 : sp.ParseUInt32 f0 = some week) (h1 : sp.ParseDouble f1 = some seconds)
    (h3 : sp.ParseDouble f3 = some az) (h4 : sp.ParseDouble f4 = some ay)
    (h5 : sp.ParseDouble f5 = some ax) (h6 : sp.ParseDouble f6 = some wz)
    (h7 : sp.ParseDouble f7 = some wy) (h8 : sp.ParseDouble f8 = some wx) :
    ∃ e, ParseAscii hparser sp sentence = .ok e ∧
      e.gps_week_num = week ∧
      e.gps_seconds = seconds ∧
      e.linear_acceleration.z = az ∧
      e.linear_acceleration.y = ay ∧
      e.linear_acceleration.x = ax ∧
      e.angular_velocity.z = wz ∧
      e.angular_velocity.y = wy ∧
      e.angular_velocity.x = wx :=
  ⟨_, ParseAscii_ok hparser sp sentence h f0 f1 f2 f3 f4 f5 f6 f7 f8 week seconds
      az ay ax wz wy wx hbody hh h0 h1 h3 h4 h5 h6 h7 h8,
    rfl, rfl, rfl, rfl, rfl, rfl, rfl, rfl⟩

theorem C10_ParseAscii_fields_as_parsed_witness :
    ∃ e, ParseAscii sampleHeaderParser sampleStringParsers sampleSentence = .ok e ∧
      e.gps_week_num = 2000 ∧
      e.gps_seconds = Double.finite 123456 ∧
      e.linear_acceleration.z = Double.finite 64 ∧
      e.linear_acceleration.y = Double.finite 65 ∧
      e.linear_acceleration.x = Double.finite 66 ∧
      e.angular_velocity.z = Double.finite 67 ∧
      e.angular_velocity.y = Double.finite 68 ∧
      e.angular_velocity.x = Double.finite 69 :=
  C10_ParseAscii_fields_as_parsed sampleHeaderParser sampleStringParsers sampleSentence
    { message_name := "RAWIMUSA", rest := 3 }
    "2000" "123456" "00000077" "64" "65" "66" "67" "68" "69"
    2000 (Double.finite 123456) (Double.finite 64) (Double.finite 65) (Double.finite 66)
    (Double.finite 67) (Double.finite 68) (Double.finite 69)
    rfl rfl (by decide) (by decide) (by decide) (by decide) (by decide) (by decide)
    (by decide) (by decide)

/-- Four zero bytes at the offsets `off` to `off + 3` are the raw count 0. -/
theorem int32At_eq_zero (d : List Byte) (off : Nat) (hoff : off + 4 ≤ 40)
    (h : ∀ i, off ≤ i → i < off + 4 → d[i]? = some 0) : int32At d off = 0 := by
  have hw := window_eq_of_agree d (List.replicate 40 (0 : Byte)) off (by
    intro i h1 h2
    rw [h i h1 h2, List.getElem?_replicate, if_pos (by omega)])
  unfold int32At
  rw [hw, List.drop_replicate, List.take_replicate]
  have hmin : min 4 (40 - off) = 4 := by omega
  rw [hmin]
  decide

/-- C11: on a 40-byte message whose bytes at the offsets 16 to 39 (the six integer slots)
are all 0, ParseBinary returns the acceleration (0, 0, 0) and the angular velocity
(0, 0, 0), whatever the week, the seconds and the other bytes are; the same values result
with any scale factor and data rate in place of those of the code. -/
theorem C11_ParseBinary_zero_slots {BinaryHeader Rest : Type}
    (hparser : HeaderParser BinaryHeader Rest) (bin_msg : BinaryMessage BinaryHeader)
    (h : NovatelMessageHeader Rest)
    (hlen : bin_msg.data_.length = 40)
    (hh : hparser.ParseBinary bin_msg = .ok h)
    (hzero : ∀ i, 16 ≤ i → i < 40 → bin_msg.data_[i]? = some 0) :
    ∃ e, ParseBinary hparser bin_msg = .ok e ∧
      e.linear_acceleration =
        { x := Double.finite 0, y := Double.finite 0, z := Double.finite 0 } ∧
      e.angular_velocity =
        { x := Double.finite 0, y := Double.finite 0, z := Double.finite 0 } ∧
      ∀ sf rate c : ℚ,
        e.linear_acceleration.z = Double.finite (sf * rate * (int32At bin_msg.data_ 16 : ℚ)) ∧
        e.linear_acceleration.y = Double.finite (sf * rate * (int32At bin_msg.data_ 20 : ℚ)) ∧
        e.linear_acceleration.x = Double.finite (sf * rate * (int32At bin_msg.data_ 24 : ℚ)) ∧
        e.angular_velocity.z =
          Double.finite (sf * rate * (int32At bin_msg.data_ 28 : ℚ) * c / 180.0) ∧
        e.angular_velocity.y =
          Double.finite (sf * rate * (int32At bin_msg.data_ 32 : ℚ) * c / 180.0) ∧
        e.angular_velocity.x =
          Double.finite (sf * rate * (int32At bin_msg.data_ 36 : ℚ) * c / 180.0) := by
  have he := ParseBinary_of_length hparser bin_msg hlen
  rw [hh] at he
  have h16 := int32At_eq_zero bin_msg.data_ 16 (by omega)
    (fun i h1 h2 => hzero i (by omega) (by omega))
  have h20 := int32At_eq_zero bin_msg.data_ 20 (by omega)
    (fun i h1 h2 => hzero i (by omega) (by omega))
  have h24 := int32At_eq_zero bin_msg.data_ 24 (by omega)
    (fun i h1 h2 => hzero i (by omega) (by omega))
  have h28 := int32At_eq_zero bin_msg.data_ 28 (by omega)
    (fun i h1 h2 => hzero i (by omega) (by omega))
  have h32 := int32At_eq_zero bin_msg.data_ 32 (by omega)
    (fun i h1 h2 => hzero i (by omega) (by omega))
  have h36 := int32At_eq_zero bin_msg.data_ 36 (by omega)
    (fun i h1 h2 => hzero i (by omega) (by omega))
  refine ⟨_, he, ?_, ?_, ?_⟩
  · simp [h16, h20, h24]
  · simp [h28, h32, h36]
  · intro sf rate c
    simp [h16, h20, h24, h28, h32, h36]

theorem C11_ParseBinary_zero_slots_witness :
    zeroSlotsMessage.data_.length = 40 ∧
      ∃ e, ParseBinary sampleHeaderParser zeroSlotsMessage = .ok e ∧
        e.linear_acceleration =
          { x := Double.finite 0, y := Double.finite 0, z := Double.finite 0 } ∧
        e.angular_velocity =
          { x := Double.finite 0, y := Double.finite 0, z := Double.finite 0 } := by
  refine ⟨by decide, ?_⟩
  obtain ⟨e, he, hla, hav, _⟩ :=
    C11_ParseBinary_zero_slots sampleHeaderParser zeroSlotsMessage
      { message_name := "", rest := 0 } (by decide) rfl (by
        intro i h1 h2
        interval_cases i <;> rfl)
  exact ⟨e, he, hla, hav⟩

/-- C12: when the header decoder throws e on an input that passes the size check (a
40-byte message for ParseBinary, a record with 9 body fields for ParseAscii), the decoder
throws exactly e and returns no entity; on the text path this holds for every pair of
field parsers, so also when some body field fails to parse. -/
theorem C12_header_failure_propagates {BinaryHeader Rest : Type}
    (hparser : HeaderParser BinaryHeader Rest) (sp : StringParsers) :
    (∀ (bin_msg : BinaryMessage BinaryHeader) (err : Failure),
        bin_msg.data_.length = 40 →
        hparser.ParseBinary bin_msg = .error err →
        ParseBinary hparser bin_msg = .error err) ∧
      (∀ (sentence : NovatelSentence) (err : Failure),
        sentence.body.length = 9 →
        hparser.ParseAscii sentence = .error err →
        ParseAscii hparser sp sentence = .error err) := by
  constructor
  · intro bin_msg err hlen hh
    rw [ParseBinary_of_length hparser bin_msg hlen, hh]
  · intro sentence err hlen hh
    obtain ⟨f0, f1, f2, f3, f4, f5, f6, f7, f8, hbody⟩ := body_of_length _ hlen
    rw [ParseAscii_of_body hparser sp sentence f0 f1 f2 f3 f4 f5 f6 f7 f8 hbody, hh]

theorem C12_header_failure_propagates_witness :
    sampleStringParsers.ParseDouble "notanumber" = none ∧
      ParseAscii failingHeaderParser sampleStringParsers badSentence =
        .error (Failure.ParseException "Unexpected header field count") ∧
      ParseBinary failingHeaderParser sampleBinaryMessage =
        .error (Failure.ParseException "Unexpected header length") :=
  ⟨by decide,
    (C12_header_failure_propagates failingHeaderParser sampleStringParsers).2
      badSentence _ (by decide) rfl,
    (C12_header_failure_propagates failingHeaderParser sampleStringParsers).1
      sampleBinaryMessage _ (by decide) rfl⟩

/-- The four-byte window at `off`, from the bytes found there. -/
theorem window_of_bytes (d : List Byte) (off : Nat) (c0 c1 c2 c3 : Byte)
    (h0 : d[off]? = some c0) (h1 : d[off + 1]? = some c1)
    (h2 : d[off + 2]? = some c2) (h3 : d[off + 3]? = some c3) :
    (d.drop off).take 4 = [c0, c1, c2, c3] := by
  apply List.ext_getElem?
  intro n
  by_cases hn : n < 4
  · rw [List.getElem?_take_of_lt hn, List.getElem?_drop]
    interval_cases n
    · simpa using h0
    · simpa using h1
    · simpa using h2
    · simpa using h3
  · rw [List.getElem?_take_eq_none (by omega)]
    have h4 : 4 ≤ n := by omega
    simp [List.getElem?_eq_none, h4]

/-- The unsigned value of four little-endian bytes. -/
theorem leValue_four (c0 c1 c2 c3 : Byte) :
    leValue [c0, c1, c2, c3] = c0.val + 256 * c1.val + 65536 * c2.val + 16777216 * c3.val := by
  simp only [leValue]
  omega

/-- C13: on a 40-byte message with the bytes b0, b1, b2, b3 at the offsets 0 to 3,
ParseBinary returns the week number b0 + 256 b1 + 65536 b2 + 16777216 b3 (unsigned 32-bit,
little-endian), a value below 2^32; every 40-byte message with the same four bytes at the
offsets 0 to 3 gets the same week number, whatever its other bytes and its header are. -/
theorem C13_ParseBinary_week_number {BinaryHeader Rest : Type}
    (hparser : HeaderParser BinaryHeader Rest) (bin_msg : BinaryMessage BinaryHeader)
    (h : NovatelMessageHeader Rest) (b0 b1 b2 b3 : Byte)
    (hlen : bin_msg.data_.length = 40)
    (hh : hparser.ParseBinary bin_msg = .ok h)
    (h0 : bin_msg.data_[0]? = some b0) (h1 : bin_msg.data_[1]? = some b1)
    (h2 : bin_msg.data_[2]? = some b2) (h3 : bin_msg.data_[3]? = some b3) :
    ∃ e, ParseBinary hparser bin_msg = .ok e ∧
      e.gps_week_num = b0.val + 256 * b1.val + 65536 * b2.val + 16777216 * b3.val ∧
      e.gps_week_num < 2 ^ 32 ∧
      ∀ (hparser2 : HeaderParser BinaryHeader Rest) (bin_msg2 : BinaryMessage BinaryHeader)
        (e2 : NovatelRawImu Rest),
        bin_msg2.data_.length = 40 →
        (∀ i, i < 4 → bin_msg2.data_[i]? = bin_msg.data_[i]?) →
        ParseBinary hparser2 bin_msg2 = .ok e2 →
        e2.gps_week_num = e.gps_week_num := by
  have he := ParseBinary_of_length hparser bin_msg hlen
  rw [hh] at he
  have hw := window_of_bytes bin_msg.data_ 0 b0 b1 b2 b3 h0 h1 h2 h3
  have hval : leValue ((bin_msg.data_.drop 0).take 4) =
      b0.val + 256 * b1.val + 65536 * b2.val + 16777216 * b3.val := by
    rw [hw, leValue_four]
  refine ⟨_, he, hval, ?_, ?_⟩
  · show leValue ((bin_msg.data_.drop 0).take 4) < 2 ^ 32
    rw [hval]
    have := b0.isLt
    have := b1.isLt
    have := b2.isLt
    have := b3.isLt
    omega
  · intro hparser2 bin_msg2 e2 hlen2 hagree he2
    rw [ParseBinary_of_length hparser2 bin_msg2 hlen2] at he2
    cases hh2 : hparser2.ParseBinary bin_msg2 with
    | error e0 =>
      rw [hh2] at he2
      simp at he2
    | ok h2 =>
      rw [hh2] at he2
      simp only [Except.ok.injEq] at he2
      subst he2
      have hw2 := window_eq_of_agree bin_msg2.data_ bin_msg.data_ 0
        (fun i _ hi => hagree i (by omega))
      simp only [hw2]

theorem C13_ParseBinary_week_number_witness :
    ∃ e, ParseBinary sampleHeaderParser sampleBinaryMessage = .ok e ∧
      e.gps_week_num = 2000 := by
  obtain ⟨e, he, hweek, _⟩ :=
    C13_ParseBinary_week_number sampleHeaderParser sampleBinaryMessage
      { message_name := "", rest := 0 } 0xD0 0x07 0x00 0x00 (by decide) rfl rfl rfl rfl rfl
  exact ⟨e, he, by rw [hweek]; decide⟩

/-- C15: field 2 of the text record is not used. For two records with 9 body fields that
differ only in field 2 (whatever the two values of field 2 are, empty or not numeric
included) and on which the header decoder succeeds, the body decoding of ParseAscii has the
same outcome: the same failure, or entities with the same week number, seconds,
acceleration and angular velocity. -/
theorem C15_ParseAscii_field2_unused {BinaryHeader Rest : Type}
    (hparser : HeaderParser BinaryHeader Rest) (sp : StringParsers)
    (s1 s2 : NovatelSentence) (hdr1 hdr2 : NovatelMessageHeader Rest)
    (f0 f1 f2 g2 f3 f4 f5 f6 f7 f8 : String)
    (hbody1 : s1.body = [f0, f1, f2, f3, f4, f5, f6, f7, f8])
    (hbody2 : s2.body = [f0, f1, g2, f3, f4, f5, f6, f7, f8])
    (hh1 : hparser.ParseAscii s1 = .ok hdr1)
    (hh2 : hparser.ParseAscii s2 = .ok hdr2) :
    (ParseAscii hparser sp s1).map bodyOf = (ParseAscii hparser sp s2).map bodyOf := by
  rw [ParseAscii_of_body hparser sp s1 f0 f1 f2 f3 f4 f5 f6 f7 f8 hbody1, hh1,
    ParseAscii_of_body hparser sp s2 f0 f1 g2 f3 f4 f5 f6 f7 f8 hbody2, hh2]
  simp only
  split <;> rfl

theorem C15_ParseAscii_field2_unused_witness :
    sampleSentence.body[2]? = some "00000077" ∧ emptyField2Sentence.body[2]? = some "" ∧
      (ParseAscii sampleHeaderParser sampleStringParsers sampleSentence).map bodyOf =
        (ParseAscii sampleHeaderParser sampleStringParsers emptyField2Sentence).map bodyOf :=
  ⟨rfl, rfl,
    C15_ParseAscii_field2_unused sampleHeaderParser sampleStringParsers
      sampleSentence emptyField2Sentence
      { message_name := "RAWIMUSA", rest := 3 } { message_name := "RAWIMUSA", rest := 3 }
      "2000" "123456" "00000077" "" "64" "65" "66" "67" "68" "69" rfl rfl rfl rfl⟩

theorem decimalValue_cons (acc : Nat) (c : Char) (cs : List Char) :
    decimalValue acc (c :: cs) = decimalValue (10 * acc + (c.toNat - 48)) cs := rfl

theorem digitChar_value (m : Nat) (hm : m < 10) : (Nat.digitChar m).toNat - 48 = m := by
  interval_cases m <;> rfl

theorem toDigitsCore_succ (fuel n : Nat) (ds : List Char) :
    Nat.toDigitsCore 10 (fuel + 1) n ds =
      if n / 10 = 0 then Nat.digitChar (n % 10) :: ds
      else Nat.toDigitsCore 10 fuel (n / 10) (Nat.digitChar (n % 10) :: ds) := rfl

/-- Reading back the digits written for `n` in front of `ds` shifts the accumulator by the
number of digits and adds `n`. -/
theorem decimalValue_toDigitsCore (fuel : Nat) :
    ∀ (n : Nat) (ds : List Char), n < fuel →
      ∃ k : Nat, ∀ acc : Nat,
        decimalValue acc (Nat.toDigitsCore 10 fuel n ds) = decimalValue (acc * 10 ^ k + n) ds := by
  induction fuel with
  | zero => intro n ds h; omega
  | succ fuel ih =>
    intro n ds hn
    have hmod : n % 10 < 10 := Nat.mod_lt _ (by norm_num)
    rw [toDigitsCore_succ]
    by_cases h0 : n / 10 = 0
    · refine ⟨1, fun acc => ?_⟩
      rw [if_pos h0, decimalValue_cons, digitChar_value _ hmod]
      have harith : 10 * acc + n % 10 = acc * 10 ^ 1 + n := by
        rw [pow_one]
        omega
      rw [harith]
    · obtain ⟨k, hk⟩ := ih (n / 10) (Nat.digitChar (n % 10) :: ds) (by omega)
      refine ⟨k + 1, fun acc => ?_⟩
      rw [if_neg h0, hk acc, decimalValue_cons, digitChar_value _ hmod]
      have harith : 10 * (acc * 10 ^ k + n / 10) + n % 10 = acc * 10 ^ (k + 1) + n := by
        rw [pow_succ]
        have := Nat.div_add_mod n 10
        nlinarith [this]
      rw [harith]

/-- The decimal text that the stream insertion writes for a size denotes that size. -/
theorem decimalValue_toString (n : Nat) : decimalValue 0 (toString n).data = n := by
  show decimalValue 0 (Nat.toDigitsCore 10 (n + 1) n []) = n
  obtain ⟨k, hk⟩ := decimalValue_toDigitsCore (n + 1) n [] (by omega)
  rw [hk 0]
  show 0 * 10 ^ k + n = n
  omega

/-- Two messages made of the same text followed by a size are equal only for equal
sizes. -/
theorem append_toString_injective (p : String) (a b : Nat)
    (h : p ++ toString a = p ++ toString b) : a = b := by
  have hd := congrArg String.data h
  rw [String.data_append, String.data_append] at hd
  have hs : toString a = toString b := String.ext (List.append_cancel_left hd)
  rw [← decimalValue_toString a, ← decimalValue_toString b, hs]

/-- C16, as stated, fails: on a 3-byte message the exception thrown by ParseBinary has the
message "Unexpected rawimu message size: 3", which names the actual length 3 and in which
the expected length 40 does not occur. -/
theorem C16_expected_length_not_reported_counterexample :
    shortBinaryMessage.data_.length = 3 ∧
      ParseBinary sampleHeaderParser shortBinaryMessage =
        .error (Failure.ParseException "Unexpected rawimu message size: 3") ∧
      occursIn "3".data "Unexpected rawimu message size: 3".data = true ∧
      occursIn "40".data "Unexpected rawimu message size: 3".data = false := by
  refine ⟨by decide, ?_, by decide, by decide⟩
  unfold ParseBinary
  rw [if_pos (by decide)]
  rfl

/-- C16, amended: for a binary message of length n different from BINARY_LENGTH (40), the
exception thrown by ParseBinary identifies the actual length n and nothing else: its
message is "Unexpected rawimu message size: " followed by n in decimal, it is the same for
all messages of length n and all header decoders, and two messages of different lengths
(both different from 40) give different exceptions. -/
theorem C16_ParseBinary_failure_reports_actual_length {BinaryHeader Rest : Type}
    (hparser : HeaderParser BinaryHeader Rest) (bin_msg : BinaryMessage BinaryHeader)
    (hlen : bin_msg.data_.length ≠ 40) :
    ParseBinary hparser bin_msg =
        .error (Failure.ParseException
          ("Unexpected rawimu message size: " ++ toString bin_msg.data_.length)) ∧
      ∀ (hparser2 : HeaderParser BinaryHeader Rest) (bin_msg2 : BinaryMessage BinaryHeader),
        bin_msg2.data_.length ≠ 40 →
        (ParseBinary hparser2 bin_msg2 = ParseBinary hparser bin_msg ↔
          bin_msg2.data_.length = bin_msg.data_.length) := by
  have hfail : ∀ (hp : HeaderParser BinaryHeader Rest) (m : BinaryMessage BinaryHeader),
      m.data_.length ≠ 40 →
      ParseBinary hp m = .error (Failure.ParseException
        ("Unexpected rawimu message size: " ++ toString m.data_.length)) := by
    intro hp m hm
    unfold ParseBinary
    rw [if_pos (by simpa [BINARY_LENGTH] using hm)]
  refine ⟨hfail hparser bin_msg hlen, ?_⟩
  intro hparser2 bin_msg2 hlen2
  rw [hfail hparser bin_msg hlen, hfail hparser2 bin_msg2 hlen2]
  constructor
  · intro heq
    simp only [Except.error.injEq, Failure.ParseException.injEq] at heq
    exact append_toString_injective _ _ _ heq
  · intro heq
    rw [heq]

theorem C16_ParseBinary_failure_reports_actual_length_witness :
    shortBinaryMessage.data_.length ≠ 40 ∧
      ParseBinary failingHeaderParser shortBinaryMessage =
        .error (Failure.ParseException "Unexpected rawimu message size: 3") :=
  ⟨by decide,
    (C16_ParseBinary_failure_reports_actual_length failingHeaderParser shortBinaryMessage
      (by decide)).1⟩

/-- A read of `n` bytes at `off` is in range exactly when it ends inside the vector. -/
theorem readBytes_in_range_iff (data : List Byte) (off n : Nat) :
    (∃ bs, readBytes data off n = .ok bs) ↔ off + n ≤ data.length := by
  unfold readBytes
  by_cases h : off + n ≤ data.length
  · simp [h]
  · simp [h]

/-- An element of a vector of strings is in range exactly when its index is below the
size. -/
theorem field_in_range_iff (body : List String) (i : Nat) :
    (∃ s, field body i = .ok s) ↔ i < body.length := by
  unfold field
  by_cases h : i < body.length
  · simp [List.get?_eq_get h, h]
  · have hnone : body[i]? = none := List.getElem?_eq_none (by omega)
    simp [hnone, h]

/-- C17: under the length check of ParseBinary (data length 40) every read of the decoder
is in range: the 4 bytes at offset 0, the 8 bytes at offset 4 and the 4 bytes at each of
the offsets 16, 20, 24, 28, 32, 36 are read successfully (a read succeeds exactly when it
ends inside the vector), and every index 0..3, 4..11, 16..39 holds a byte; under the field-count check of ParseAscii (9 body fields) every body
index 0..8 is in range. Neither decoder ever ends with an out-of-range read of its own: an
out-of-range outcome can only be the one of the header decoder. -/
theorem C17_reads_in_bounds {BinaryHeader Rest : Type}
    (hparser : HeaderParser BinaryHeader Rest) (sp : StringParsers) :
    (∀ bin_msg : BinaryMessage BinaryHeader, bin_msg.data_.length = BINARY_LENGTH →
        (∃ v, ParseUInt32 bin_msg.data_ 0 = .ok v) ∧
        (∃ v, ParseDouble bin_msg.data_ 4 = .ok v) ∧
        (∀ off, off ∈ slotOffsets → ∃ v, ParseInt32 bin_msg.data_ off = .ok v) ∧
        (∀ i, i < 4 ∨ (4 ≤ i ∧ i < 12) ∨ (16 ≤ i ∧ i < 40) →
          i < bin_msg.data_.length ∧ ∃ b, bin_msg.data_[i]? = some b)) ∧
      (∀ bin_msg : BinaryMessage BinaryHeader,
        ParseBinary hparser bin_msg = .error Failure.OutOfRange →
        hparser.ParseBinary bin_msg = .error Failure.OutOfRange) ∧
      (∀ sentence : NovatelSentence, sentence.body.length = ASCII_FIELDS →
        ∀ i, i ≤ 8 → i < sentence.body.length ∧ ∃ s, field sentence.body i = .ok s) ∧
      (∀ sentence : NovatelSentence,
        ParseAscii hparser sp sentence = .error Failure.OutOfRange →
        hparser.ParseAscii sentence = .error Failure.OutOfRange) ∧
      (∀ (data : List Byte) (off n : Nat),
        (∃ bs, readBytes data off n = .ok bs) ↔ off + n ≤ data.length) := by
  refine ⟨?_, ?_, ?_, ?_, readBytes_in_range_iff⟩
  · intro bin_msg hlen
    have h40 : bin_msg.data_.length = 40 := hlen
    refine ⟨⟨_, ParseUInt32_ok _ 0 (by omega)⟩, ⟨_, ParseDouble_ok _ 4 (by omega)⟩, ?_, ?_⟩
    · intro off hoff
      simp only [slotOffsets, List.mem_cons, List.mem_singleton, List.not_mem_nil,
        or_false] at hoff
      exact ⟨_, ParseInt32_ok _ off (by omega)⟩
    · intro i hi
      have hlt : i < bin_msg.data_.length := by omega
      exact ⟨hlt, bin_msg.data_[i], List.getElem?_eq_getElem hlt⟩
  · intro bin_msg herr
    by_cases hlen : bin_msg.data_.length = BINARY_LENGTH
    · rw [ParseBinary_of_length hparser bin_msg hlen] at herr
      cases hh : hparser.ParseBinary bin_msg with
      | error e0 =>
        rw [hh] at herr
        simpa using herr
      | ok h =>
        rw [hh] at herr
        simp at herr
    · unfold ParseBinary at herr
      rw [if_pos hlen] at herr
      simp at herr
  · intro sentence hlen i hi
    have h9 : sentence.body.length = 9 := hlen
    have hlt : i < sentence.body.length := by omega
    exact ⟨hlt, (field_in_range_iff _ _).mpr hlt⟩
  · intro sentence herr
    by_cases hlen : sentence.body.length = ASCII_FIELDS
    · obtain ⟨f0, f1, f2, f3, f4, f5, f6, f7, f8, hbody⟩ := body_of_length _ hlen
      rw [ParseAscii_of_body hparser sp sentence f0 f1 f2 f3 f4 f5 f6 f7 f8 hbody] at herr
      cases hh : hparser.ParseAscii sentence with
      | error e0 =>
        rw [hh] at herr
        simpa using herr
      | ok h =>
        rw [hh] at herr
        simp only at herr
        split at herr <;> simp at herr
    · unfold ParseAscii at herr
      rw [if_pos hlen] at herr
      simp at herr

theorem C17_reads_in_bounds_witness :
    sampleBinaryMessage.data_.length = BINARY_LENGTH ∧
      (∃ v, ParseInt32 sampleBinaryMessage.data_ 36 = .ok v) ∧
      (∃ b, sampleBinaryMessage.data_[39]? = some b) ∧
      sampleSentence.body.length = ASCII_FIELDS ∧
      (∃ s, field sampleSentence.body 8 = .ok s) := by
  have hC := C17_reads_in_bounds sampleHeaderParser sampleStringParsers
  have hbin := hC.1 sampleBinaryMessage (by decide)
  have htxt := hC.2.2.1 sampleSentence (by decide) 8 (by decide)
  exact ⟨by decide, hbin.2.2.1 36 (by decide), (hbin.2.2.2 39 (by decide)).2, by decide,
    htxt.2⟩

/-- Bytes that agree at the offsets `off` to `off + n - 1` give the same window of `n`
bytes. -/
theorem window_eq_of_agree_on (d1 d2 : List Byte) (off n : Nat)
    (h : ∀ i, off ≤ i → i < off + n → d1[i]? = d2[i]?) :
    (d1.drop off).take n = (d2.drop off).take n := by
  apply List.ext_getElem?
  intro k
  by_cases hk : k < n
  · rw [List.getElem?_take_of_lt hk, List.getElem?_take_of_lt hk, List.getElem?_drop,
      List.getElem?_drop]
    exact h (off + k) (by omega) (by omega)
  · rw [List.getElem?_take_eq_none (by omega), List.getElem?_take_eq_none (by omega)]

/-- C18: the bytes at the offsets 12 to 15 are not read by the body decoding. For two
40-byte messages that agree on every byte except possibly those at the offsets 12 to 15,
and on which the header decoder succeeds, ParseBinary returns the same week number,
seconds, acceleration and angular velocity; the bytes that are read (0..11 and 16..39) are
36 of the 40. -/
theorem C18_ParseBinary_padding_unused {BinaryHeader Rest : Type}
    (hparser : HeaderParser BinaryHeader Rest) (m1 m2 : BinaryMessage BinaryHeader)
    (hdr1 hdr2 : NovatelMessageHeader Rest)
    (hlen1 : m1.data_.length = 40) (hlen2 : m2.data_.length = 40)
    (hh1 : hparser.ParseBinary m1 = .ok hdr1) (hh2 : hparser.ParseBinary m2 = .ok hdr2)
    (hagree : ∀ i, i < 12 ∨ 16 ≤ i → m1.data_[i]? = m2.data_[i]?) :
    (∃ e1 e2, ParseBinary hparser m1 = .ok e1 ∧ ParseBinary hparser m2 = .ok e2 ∧
        e1.gps_week_num = e2.gps_week_num ∧ e1.gps_seconds = e2.gps_seconds ∧
        e1.linear_acceleration = e2.linear_acceleration ∧
        e1.angular_velocity = e2.angular_velocity) ∧
      (ParseBinary hparser m1).map bodyOf = (ParseBinary hparser m2).map bodyOf ∧
      ((List.range 40).filter (fun i => i < 12 ∨ 16 ≤ i)).length = 36 := by
  have he1 := ParseBinary_of_length hparser m1 hlen1
  have he2 := ParseBinary_of_length hparser m2 hlen2
  rw [hh1] at he1
  rw [hh2] at he2
  have w0 := window_eq_of_agree_on m1.data_ m2.data_ 0 4
    (fun i _ _ => hagree i (by omega))
  have w4 := window_eq_of_agree_on m1.data_ m2.data_ 4 8
    (fun i _ _ => hagree i (by omega))
  have w16 := window_eq_of_agree_on m1.data_ m2.data_ 16 4
    (fun i _ _ => hagree i (by omega))
  have w20 := window_eq_of_agree_on m1.data_ m2.data_ 20 4
    (fun i _ _ => hagree i (by omega))
  have w24 := window_eq_of_agree_on m1.data_ m2.data_ 24 4
    (fun i _ _ => hagree i (by omega))
  have w28 := window_eq_of_agree_on m1.data_ m2.data_ 28 4
    (fun i _ _ => hagree i (by omega))
  have w32 := window_eq_of_agree_on m1.data_ m2.data_ 32 4
    (fun i _ _ => hagree i (by omega))
  have w36 := window_eq_of_agree_on m1.data_ m2.data_ 36 4
    (fun i _ _ => hagree i (by omega))
  refine ⟨⟨_, _, he1, he2, ?_, ?_, ?_, ?_⟩, ?_, by decide⟩
  · simp only [w0]
  · simp only [w4]
  · simp only [int32At, w16, w20, w24]
  · simp only [int32At, w28, w32, w36]
  · rw [he1, he2]
    simp only [Except.map, bodyOf, int32At, w0, w4, w16, w20, w24, w28, w32, w36]

theorem C18_ParseBinary_padding_unused_witness :
    sampleBinaryMessage.data_[12]? = some 0xAA ∧ otherPaddingMessage.data_[12]? = some 0x00 ∧
      (ParseBinary sampleHeaderParser sampleBinaryMessage).map bodyOf =
        (ParseBinary sampleHeaderParser otherPaddingMessage).map bodyOf :=
  ⟨rfl, rfl,
    (C18_ParseBinary_padding_unused sampleHeaderParser sampleBinaryMessage otherPaddingMessage
      { message_name := "", rest := 0 } { message_name := "", rest := 0 }
      (by decide) (by decide) rfl rfl (by
        intro i hi
        by_cases h40 : i < 40
        · interval_cases i <;> first | rfl | omega
        · rw [List.getElem?_eq_none (by
            have : sampleBinaryMessage.data_.length = 40 := by decide
            omega), List.getElem?_eq_none (by
            have : otherPaddingMessage.data_.length = 40 := by decide
            omega)])).2.1⟩

/-- Scaling raw counts by a positive factor keeps their order and their sign. -/
theorem scaled_order (c : ℚ) (hc : 0 < c) (a b : ℤ) :
    (a < b → (a : ℚ) * c < (b : ℚ) * c) ∧ (0 < a ↔ 0 < (a : ℚ) * c) ∧
      (a < 0 ↔ (a : ℚ) * c < 0) ∧ ((a : ℚ) * c = 0 ↔ a = 0) := by
  refine ⟨?_, ?_, ?_, ?_⟩
  · intro hab
    have : (a : ℚ) < (b : ℚ) := by exact_mod_cast hab
    exact mul_lt_mul_of_pos_right this hc
  · constructor
    · intro ha
      have : (0 : ℚ) < (a : ℚ) := by exact_mod_cast ha
      exact mul_pos this hc
    · intro ha
      have : (0 : ℚ) < (a : ℚ) := (mul_pos_iff_of_pos_right hc).mp ha
      exact_mod_cast this
  · constructor
    · intro ha
      have : (a : ℚ) < 0 := by exact_mod_cast ha
      exact mul_neg_of_neg_of_pos this hc
    · intro ha
      have : (a : ℚ) < 0 := by
        by_contra hcon
        have hnn : (0 : ℚ) ≤ (a : ℚ) := not_lt.mp hcon
        have := mul_nonneg hnn (le_of_lt hc)
        linarith
      exact_mod_cast this
  · constructor
    · intro ha
      rcases mul_eq_zero.mp ha with h0 | h0
      · exact_mod_cast h0
      · exact absurd h0 (ne_of_gt hc)
    · intro ha
      rw [ha]
      simp

/-- The two conversion factors are positive. -/
theorem factors_pos :
    (0 : ℚ) < (0.200 / 65536) * (9.80665 / 1000) ∧ (0 : ℚ) < (0.008 / 65536) * pi / 180 := by
  constructor
  · norm_num
  · simp only [pi]
    norm_num

/-- The acceleration conversion as raw count times factor. -/
theorem accel_value_eq (r : ℤ) :
    sf_az * DataRate * (r : ℚ) = (r : ℚ) * ((0.200 / 65536) * (9.80665 / 1000)) ∧
      sf_ay * DataRate * (r : ℚ) = (r : ℚ) * ((0.200 / 65536) * (9.80665 / 1000)) ∧
      sf_ax * DataRate * (r : ℚ) = (r : ℚ) * ((0.200 / 65536) * (9.80665 / 1000)) := by
  obtain ⟨h1, h2, h3⟩ := accel_scale_eq (r : ℚ)
  refine ⟨?_, ?_, ?_⟩
  · rw [h1]; ring
  · rw [h2]; ring
  · rw [h3]; ring

/-- The angular velocity conversion as raw count times factor. -/
theorem gyro_value_eq (r : ℤ) :
    sf_wz * DataRate * (r : ℚ) * pi / 180.0 = (r : ℚ) * ((0.008 / 65536) * pi / 180) ∧
      sf_wy * DataRate * (r : ℚ) * pi / 180.0 = (r : ℚ) * ((0.008 / 65536) * pi / 180) ∧
      sf_wx * DataRate * (r : ℚ) * pi / 180.0 = (r : ℚ) * ((0.008 / 65536) * pi / 180) := by
  obtain ⟨h1, h2, h3⟩ := gyro_scale_eq (r : ℚ)
  refine ⟨?_, ?_, ?_⟩
  · rw [h1]; ring
  · rw [h2]; ring
  · rw [h3]; ring

/-- C19: in exact arithmetic the conversion of each of the six sensor slots is strictly
increasing in the raw count. For two 40-byte messages and each slot (offsets 16, 20, 24,
28, 32, 36), the two decoded values are finite, and when the raw count of the first is
smaller than that of the second its decoded value is strictly smaller; the decoded value
is positive, negative or zero exactly when the raw count is. -/
theorem C19_ParseBinary_conversion_monotone {BinaryHeader Rest : Type}
    (hparser : HeaderParser BinaryHeader Rest) (m1 m2 : BinaryMessage BinaryHeader)
    (hdr1 hdr2 : NovatelMessageHeader Rest)
    (hlen1 : m1.data_.length = 40) (hlen2 : m2.data_.length = 40)
    (hh1 : hparser.ParseBinary m1 = .ok hdr1) (hh2 : hparser.ParseBinary m2 = .ok hdr2) :
    ∃ e1 e2, ParseBinary hparser m1 = .ok e1 ∧ ParseBinary hparser m2 = .ok e2 ∧
      ∀ (k off : Nat), slotOffsets[k]? = some off →
        ∃ q1 q2 : ℚ,
          (sensorValues e1)[k]? = some (Double.finite q1) ∧
          (sensorValues e2)[k]? = some (Double.finite q2) ∧
          (int32At m1.data_ off < int32At m2.data_ off → q1 < q2) ∧
          (0 < int32At m1.data_ off ↔ 0 < q1) ∧
          (int32At m1.data_ off < 0 ↔ q1 < 0) ∧
          (q1 = 0 ↔ int32At m1.data_ off = 0) := by
  have he1 := ParseBinary_of_length hparser m1 hlen1
  have he2 := ParseBinary_of_length hparser m2 hlen2
  rw [hh1] at he1
  rw [hh2] at he2
  refine ⟨_, _, he1, he2, ?_⟩
  intro k off hk
  have hk6 : k < 6 := by
    by_contra hcon
    have : slotOffsets[k]? = none := List.getElem?_eq_none (by simp [slotOffsets]; omega)
    rw [this] at hk
    cases hk
  have ha := factors_pos.1
  have hw := factors_pos.2
  interval_cases k
  · obtain rfl : 16 = off := by simpa [slotOffsets] using hk
    refine ⟨_, _, rfl, rfl, ?_⟩
    rw [(accel_value_eq _).1, (accel_value_eq _).1]
    exact scaled_order _ ha _ _
  · obtain rfl : 20 = off := by simpa [slotOffsets] using hk
    refine ⟨_, _, rfl, rfl, ?_⟩
    rw [(accel_value_eq _).2.1, (accel_value_eq _).2.1]
    exact scaled_order _ ha _ _
  · obtain rfl : 24 = off := by simpa [slotOffsets] using hk
    refine ⟨_, _, rfl, rfl, ?_⟩
    rw [(accel_value_eq _).2.2, (accel_value_eq _).2.2]
    exact scaled_order _ ha _ _
  · obtain rfl : 28 = off := by simpa [slotOffsets] using hk
    refine ⟨_, _, rfl, rfl, ?_⟩
    rw [(gyro_value_eq _).1, (gyro_value_eq _).1]
    exact scaled_order _ hw _ _
  · obtain rfl : 32 = off := by simpa [slotOffsets] using hk
    refine ⟨_, _, rfl, rfl, ?_⟩
    rw [(gyro_value_eq _).2.1, (gyro_value_eq _).2.1]
    exact scaled_order _ hw _ _
  · obtain rfl : 36 = off := by simpa [slotOffsets] using hk
    refine ⟨_, _, rfl, rfl, ?_⟩
    rw [(gyro_value_eq _).2.2, (gyro_value_eq _).2.2]
    exact scaled_order _ hw _ _

theorem C19_ParseBinary_conversion_monotone_witness :
    int32At minusOneSlotMessage.data_ 16 = -1 ∧ int32At sampleBinaryMessage.data_ 16 = 1 ∧
      ∃ e1 e2, ParseBinary sampleHeaderParser minusOneSlotMessage = .ok e1 ∧
        ParseBinary sampleHeaderParser sampleBinaryMessage = .ok e2 ∧
        ∃ q1 q2 : ℚ, e1.linear_acceleration.z = Double.finite q1 ∧
          e2.linear_acceleration.z = Double.finite q2 ∧ q1 < q2 ∧ q1 < 0 := by
  have hm1 : int32At minusOneSlotMessage.data_ 16 = -1 := by decide
  have hp1 : int32At sampleBinaryMessage.data_ 16 = 1 := by decide
  refine ⟨hm1, hp1, ?_⟩
  obtain ⟨e1, e2, he1, he2, hall⟩ :=
    C19_ParseBinary_conversion_monotone sampleHeaderParser minusOneSlotMessage
      sampleBinaryMessage { message_name := "", rest := 0 } { message_name := "", rest := 0 }
      (by decide) (by decide) rfl rfl
  obtain ⟨q1, q2, hq1, hq2, hlt, _, hneg, _⟩ := hall 0 16 rfl
  refine ⟨e1, e2, he1, he2, q1, q2, ?_, ?_, hlt (by rw [hm1, hp1]; decide),
    hneg.mp (by rw [hm1]; decide)⟩
  · simpa [sensorValues] using hq1
  · simpa [sensorValues] using hq2

end RawImuParser

end novatel_gps_driver
